import Mathlib

/-!
# LazyWrite: reference-counted frame allocator and copy-on-write fault path

A shallow embedding of `src/kernel/kalloc.c`.

* Physical memory is a byte-addressed function `Nat → Nat`; the free list is
  the intrusive list of the source: `kmem.freelist` is a pointer and the link
  `r->next` of a free frame is stored in the first 8 bytes of that frame.
* `Ref.references` is a table of C `int` values (`CInt`, 32 bits, wrapping).
* `panic` is a result of its own, carrying the state at the time of the abort.
* Locks are not part of the state: every operation is executed alone. The
  order in which a routine takes its locks and touches the free list and the
  share counts is given separately, as a list of events (`kfreeEvents`,
  `kallocEvents`, `addEvents`, `decEvents`).
* The constants and macros of the absent headers (`memlayout.h`, `riscv.h`,
  `param.h`) are either fields of `Config` or the RISC-V values the source
  relies on (4096-byte pages, Sv39 entry layout).
-/

namespace LazyWrite

/-! ## Constants and configuration -/

/-- Page size in bytes; the source allocates "whole 4096-byte pages". -/
def PGSIZE : Nat := 4096

/-- Round an address up to the next page boundary
(the macro `PGROUNDUP(sz) = (sz + PGSIZE - 1) & ~(PGSIZE - 1)`). -/
def PGROUNDUP (sz : Nat) : Nat := (sz + PGSIZE - 1) / PGSIZE * PGSIZE

/-- Round an address down to its page boundary
(the macro `PGROUNDDOWN(a) = a & ~(PGSIZE - 1)`). -/
def PGROUNDDOWN (a : Nat) : Nat := a / PGSIZE * PGSIZE

/-- Constants and macros that the source takes from headers outside the file:
`end` (first address after the kernel), `PHYSTOP`, `MAXREFERENCES`, the macro
`PA2REF` (already converted to `int`, as in `int ref = PA2REF(pa)`), `MAXVA`
and the software-defined page-table flag `PTE_COW`. -/
structure Config where
  /-- The linker symbol `end`: first address after the kernel. -/
  endAddr : Nat
  /-- The constant `PHYSTOP`: end of the managed physical range. -/
  PHYSTOP : Nat
  /-- The constant `MAXREFERENCES`: capacity of `Ref.references`. -/
  MAXREFERENCES : Nat
  /-- The macro `PA2REF`: index of a physical address in `Ref.references`. -/
  PA2REF : Nat → Int
  /-- The constant `MAXVA`: one past the highest virtual address. -/
  MAXVA : Nat
  /-- The flag mask `PTE_COW`. -/
  PTE_COW : Nat

/-- Valid bit of a page-table entry (RISC-V Sv39, bit 0). -/
def PTE_V : Nat := 1

/-- Writable bit of a page-table entry (RISC-V Sv39, bit 2). -/
def PTE_W : Nat := 4

/-- User-accessible bit of a page-table entry (RISC-V Sv39, bit 4). -/
def PTE_U : Nat := 16

/-- An address that `kfree` accepts: page aligned and inside `[end, PHYSTOP)`. -/
def managed (cfg : Config) (pa : Nat) : Prop :=
  pa % PGSIZE = 0 ∧ cfg.endAddr ≤ pa ∧ pa < cfg.PHYSTOP

instance (cfg : Config) (pa : Nat) : Decidable (managed cfg pa) := by
  unfold managed
  infer_instance

/-- What the embedding assumes of the header constants: `end` is a real
address, `PHYSTOP` is a page-aligned 64-bit address, `PA2REF` sends the
managed frames to distinct indices inside the reference table (so the
unchecked accesses `Ref.references[ref]` of `kfree` and `kalloc` stay inside
the array), and `PTE_COW` is made of flag bits (the low ten bits of an entry)
other than the valid and writable flags. -/
structure Config.Valid (cfg : Config) : Prop where
  end_pos : 0 < cfg.endAddr
  phystop_aligned : cfg.PHYSTOP % PGSIZE = 0
  phystop_fits : cfg.PHYSTOP ≤ 2 ^ 64
  ref_inj : ∀ p q, managed cfg p → managed cfg q → cfg.PA2REF p = cfg.PA2REF q → p = q
  ref_tracked : ∀ p, managed cfg p → 0 ≤ cfg.PA2REF p ∧ cfg.PA2REF p < cfg.MAXREFERENCES
  cow_not_valid : cfg.PTE_COW &&& PTE_V = 0
  cow_not_writable : cfg.PTE_COW &&& PTE_W = 0
  cow_flag : cfg.PTE_COW < 1024

/-! ## C `int` values -/

/-- A value of the C type `int` (32 bits, two's complement). -/
structure CInt where
  val : Int
  lo : -2147483648 ≤ val
  hi : val ≤ 2147483647

/-- Conversion of an integer to `int`, wrapping modulo `2^32`. -/
def CInt.wrap (x : Int) : CInt :=
  ⟨(x + 2147483648) % 4294967296 - 2147483648, by omega, by omega⟩

/-- The largest `int`. -/
def INT_MAX : Int := 2147483647

/-! ## Memory -/

/-- The library routine `memset(dst, c, n)`: `n` bytes from `dst` become the
byte `c`. -/
def memset (mem : Nat → Nat) (dst c n : Nat) : Nat → Nat :=
  fun a => if dst ≤ a ∧ a < dst + n then c % 256 else mem a

/-- The library routine `memmove(dst, src, n)`: `n` bytes from `dst` become the
bytes that were at `src` before the call (overlap is handled). -/
def memmove (mem : Nat → Nat) (dst src n : Nat) : Nat → Nat :=
  fun a => if dst ≤ a ∧ a < dst + n then mem (src + (a - dst)) else mem a

/-- Little-endian read of `n` bytes starting at `a`. -/
def loadLE (mem : Nat → Nat) : Nat → Nat → Nat
  | _, 0 => 0
  | a, n + 1 => mem a % 256 + 256 * loadLE mem (a + 1) n

/-- Little-endian write of the low `n` bytes of `v` starting at `a`. -/
def storeLE (mem : Nat → Nat) (a v n : Nat) : Nat → Nat :=
  fun x => if a ≤ x ∧ x < a + n then v / 256 ^ (x - a) % 256 else mem x

/-- Read of a 64-bit pointer, as in `r->next` (the field is at offset 0). -/
def load64 (mem : Nat → Nat) (a : Nat) : Nat := loadLE mem a 8

/-- Write of a 64-bit pointer, as in `r->next = ...`. -/
def store64 (mem : Nat → Nat) (a v : Nat) : Nat → Nat := storeLE mem a v 8

/-! ## State -/

/-- The mutable state the file works on: physical memory, `kmem.freelist`,
`Ref.references`, the page table of the faulting process (keyed by virtual
page number; `none` where the walk finds no entry slot) and
`myproc()->pagefaultcount`. -/
structure KState where
  mem : Nat → Nat
  freelist : Nat
  references : Int → CInt
  pagetable : Nat → Option Nat
  pagefaultcount : Nat

/-- Result of a routine that may call `panic`: either it returns, or the
kernel aborts with a message in the state reached at that point. -/
inductive Outcome (α : Type) where
  | ok (a : α) : Outcome α
  | panic (msg : String) (s : KState) : Outcome α

/-- Share count of the frame at `pa`: `Ref.references[PA2REF(pa)]`. -/
def refcount (cfg : Config) (s : KState) (pa : Nat) : Int :=
  (s.references (cfg.PA2REF pa)).val

/-- Assignment `Ref.references[i] = v`. -/
def setRef (refs : Int → CInt) (i : Int) (v : CInt) : Int → CInt :=
  fun j => if j = i then v else refs j

/-! ## Frame pool -/

/-- The routine `kfree` (lines 76-101). -/
def kfree (cfg : Config) (pa : Nat) (s : KState) : Outcome KState :=
  let ref := cfg.PA2REF pa
  if pa % PGSIZE ≠ 0 ∨ pa < cfg.endAddr ∨ pa ≥ cfg.PHYSTOP then
    .panic "kfree" s
  else
    let c := CInt.wrap ((s.references ref).val - 1)
    let s1 := { s with references := setRef s.references ref c }
    if c.val > 0 then
      .ok s1
    else
      let m := memset s1.mem pa 1 PGSIZE
      .ok { s1 with mem := store64 m pa s1.freelist, freelist := pa }

/-- The routine `kalloc` (lines 114-130); the returned pointer is `0` when the
free list is empty. -/
def kalloc (cfg : Config) (s : KState) : Nat × KState :=
  let r := s.freelist
  if r ≠ 0 then
    let s1 := { s with freelist := load64 s.mem r }
    (r, { s1 with
            mem := memset s1.mem r 69 PGSIZE
            references := setRef s1.references (cfg.PA2REF r) (CInt.wrap 1) })
  else
    (r, s)

/-- The loop of `freerange`: `for(; p + PGSIZE <= pa_end; p += PGSIZE) kfree(p)`. -/
def freerangeLoop (cfg : Config) (pa_end : Nat) (p : Nat) (s : KState) : Outcome KState :=
  if p + PGSIZE ≤ pa_end then
    match kfree cfg p s with
    | .panic msg t => .panic msg t
    | .ok t => freerangeLoop cfg pa_end (p + PGSIZE) t
  else
    .ok s
termination_by pa_end - p
decreasing_by
  simp only [PGSIZE] at *
  omega

/-- The routine `freerange` (lines 57-64). -/
def freerange (cfg : Config) (pa_start pa_end : Nat) (s : KState) : Outcome KState :=
  freerangeLoop cfg pa_end (PGROUNDUP pa_start) s

/-- The routine `kinit` (lines 49-55); `initlock` has no effect here. -/
def kinit (cfg : Config) (s : KState) : Outcome KState :=
  freerange cfg cfg.endAddr cfg.PHYSTOP s

/-! ## Reference table -/

/-- The routine `add_the_reference` (lines 132-140). -/
def add_the_reference (cfg : Config) (pa : Nat) (s : KState) : KState :=
  let reference := cfg.PA2REF pa
  if reference < 0 ∨ reference ≥ cfg.MAXREFERENCES then
    s
  else
    { s with references :=
        setRef s.references reference (CInt.wrap ((s.references reference).val + 1)) }

/-- The routine `decreasereferences_and_check` (lines 145-160). -/
def decreasereferences_and_check (cfg : Config) (pa : Nat) (s : KState) : Int × KState :=
  let reference := cfg.PA2REF pa
  if reference < 0 ∨ reference ≥ cfg.MAXREFERENCES then
    (-1, s)
  else if (s.references reference).val ≤ 1 then
    (0, s)
  else
    (1, { s with references :=
            setRef s.references reference (CInt.wrap ((s.references reference).val - 1)) })

/-- The routine `copy_page` (lines 162-174); the result pointer is `0` on
failure. -/
def copy_page (cfg : Config) (pa : Nat) (s : KState) : Nat × KState :=
  let reference := cfg.PA2REF pa
  if reference < 0 ∨ reference ≥ cfg.MAXREFERENCES then
    (0, s)
  else
    let r := kalloc cfg s
    let mem := r.1
    if mem = 0 then
      (0, r.2)
    else
      (mem, { r.2 with mem := memmove r.2.mem mem pa PGSIZE })

/-- The routine `copyanddecreasereferences` (lines 176-182). -/
def copyanddecreasereferences (cfg : Config) (pa : Nat) (s : KState) : Nat × KState :=
  let r := decreasereferences_and_check cfg pa s
  if r.1 = 0 then
    (pa, r.2)
  else
    copy_page cfg pa r.2

/-! ## Page-table entries and the page-table collaborator -/

/-- The macro `PTE_FLAGS(pte) = pte & 0x3FF`: the ten flag bits. -/
def PTE_FLAGS (pte : Nat) : Nat := pte &&& 1023

/-- The macro `PTE2PA(pte) = (pte >> 10) << 12`: the mapped frame. -/
def PTE2PA (pte : Nat) : Nat := (pte >>> 10) <<< 12

/-- The macro `PA2PTE(pa) = (pa >> 12) << 10`. -/
def PA2PTE (pa : Nat) : Nat := (pa >>> 12) <<< 10

/-- The C expression `x & ~m`: `x` with the bits of `m` cleared. -/
def andNot (x m : Nat) : Nat := x ^^^ (x &&& m)

/-- Modelled from the spec: `walk` is absent from the sources. Section 6 gives
it as "page-table lookup(table, addr) → entry-or-none", returning the current
mapping without side effects. The result is the slot of the page that holds
`va` (its virtual page number, standing for the `pte_t *`), or `none`. -/
def walk (s : KState) (va : Nat) : Option Nat :=
  match s.pagetable (va / PGSIZE) with
  | some _ => some (va / PGSIZE)
  | none => none

/-- The C expression `*pte` for a slot returned by `walk`. -/
def readPte (s : KState) (pte : Nat) : Nat :=
  (s.pagetable pte).getD 0

/-- Assignment `*pte = e`. -/
def setPte (pt : Nat → Option Nat) (pte : Nat) (e : Nat) : Nat → Option Nat :=
  fun k => if k = pte then some e else pt k

/-- Modelled from the spec: `uvmunmap` is absent from the sources. Section 6
gives it as "page-table unmap(table, addr, count)", which "removes one
mapping" and "must not fail for a mapping known to exist". The call in the
source is `uvmunmap(pagetable, va, 1, 1)`: one page, and `do_free = 1`, with
which the old frame is released through `kfree` before the entry is cleared.
An unaligned address and a missing or invalid entry abort. -/
def uvmunmap (cfg : Config) (va : Nat) (s : KState) : Outcome KState :=
  if va % PGSIZE ≠ 0 then
    .panic "uvmunmap: not aligned" s
  else
    match walk s va with
    | none => .panic "uvmunmap: walk" s
    | some pte =>
      if readPte s pte &&& PTE_V = 0 then
        .panic "uvmunmap: not mapped" s
      else
        match kfree cfg (PTE2PA (readPte s pte)) s with
        | .panic msg t => .panic msg t
        | .ok t => .ok { t with pagetable := setPte t.pagetable pte 0 }

/-- Modelled from the spec: `mappages` is absent from the sources. Section 6
gives it as "page-table map(table, addr, frame, flags) → Ok/Err", which
"installs a mapping". The call is `mappages(pagetable, va, 1, pa, perm)`: the
entry of the page that holds `va` becomes a valid entry for `pa` with the
flags `perm`; the result is `0`, or `-1` when no entry slot is available. -/
def mappages (va pa perm : Nat) (s : KState) : Int × KState :=
  match walk s va with
  | none => (-1, s)
  | some pte =>
    (0, { s with pagetable := setPte s.pagetable pte (PA2PTE pa ||| perm ||| PTE_V) })

/-! ## Copy-on-write fault path -/

/-- The routine `handle_page_fault` (lines 186-199). -/
def handle_page_fault (cfg : Config) (va : Nat) (s : KState) : Int × KState :=
  if va ≥ cfg.MAXVA ∨ va ≤ 0 then
    (-1, s)
  else
    match walk s va with
    | none => (-1, s)
    | some pte =>
      if readPte s pte &&& PTE_V = 0 ∨ readPte s pte &&& PTE_U = 0
          ∨ readPte s pte &&& cfg.PTE_COW = 0 then
        (-1, s)
      else
        (0, { s with pagefaultcount := s.pagefaultcount + 1 })

/-- The routine `copy_and_remap_page` (lines 202-217); `pte` is the slot that
`walk` returned. -/
def copy_and_remap_page (cfg : Config) (va : Nat) (pte : Nat) (s : KState) :
    Outcome (Int × KState) :=
  let pa := PTE2PA (readPte s pte)
  let r := kalloc cfg s
  let mem := r.1
  if mem = 0 then
    .ok (-1, r.2)
  else
    let s1 := { r.2 with mem := memmove r.2.mem mem pa PGSIZE }
    let flags := andNot (PTE_FLAGS (readPte s1 pte) ||| PTE_W) cfg.PTE_COW
    match uvmunmap cfg (PGROUNDDOWN va) s1 with
    | .panic msg t => .panic msg t
    | .ok s2 =>
      let m := mappages va mem flags s2
      if m.1 = -1 then
        .panic "Pagefaulthandler mappages" m.2
      else
        .ok (0, m.2)

/-- The routine `pagefaulthandler` (lines 219-228). A null `pte` at line 226
would be dereferenced by `copy_and_remap_page`; that is a kernel trap. -/
def pagefaulthandler (cfg : Config) (va : Nat) (s : KState) : Outcome (Int × KState) :=
  let r := handle_page_fault cfg va s
  if r.1 = -1 then
    .ok (-1, r.2)
  else
    match walk r.2 va with
    | none => .panic "kerneltrap" r.2
    | some pte => copy_and_remap_page cfg va pte r.2

/-! ## The free list as a list of frames, and the pool invariant -/

/-- The chain of links starting at pointer `h` visits exactly the frames of
`l`, in order, and ends with the null pointer. -/
def isFreeList (mem : Nat → Nat) : Nat → List Nat → Prop
  | h, [] => h = 0
  | h, p :: l => h = p ∧ p ≠ 0 ∧ isFreeList mem (load64 mem p) l

/-- The free list of state `s` is the list `l`: the links from `kmem.freelist`
spell out `l`, no frame occurs twice and every frame is a managed frame. -/
def FreeListIs (cfg : Config) (s : KState) (l : List Nat) : Prop :=
  isFreeList s.mem s.freelist l ∧ l.Nodup ∧ ∀ p ∈ l, managed cfg p

/-- Pool invariant of the code: the free list is `l`, a frame on it has share
count `0` or `-1` and a managed frame off it has a share count of at least
`1`. -/
def PoolInv (cfg : Config) (s : KState) (l : List Nat) : Prop :=
  FreeListIs cfg s l ∧ (∀ p ∈ l, refcount cfg s p = 0 ∨ refcount cfg s p = -1) ∧
    ∀ p, managed cfg p → p ∉ l → 1 ≤ refcount cfg s p

/-- A state before `kinit`: the globals are zero-initialised, so the free
list is empty and every entry of the reference table is `0`. -/
def Boot (s : KState) : Prop :=
  s.freelist = 0 ∧ ∀ i, (s.references i).val = 0

/-- States reachable from initialization by `kalloc`, `kfree` of an allocated
frame, `add_the_reference` on an allocated frame whose count is below
`INT_MAX`, and `decreasereferences_and_check`. -/
inductive Reachable (cfg : Config) : KState → Prop where
  | init (s0 s : KState) (hb : Boot s0) (h : kinit cfg s0 = .ok s) : Reachable cfg s
  | kalloc (s : KState) (hr : Reachable cfg s) : Reachable cfg (kalloc cfg s).2
  | kfree (s s' : KState) (pa : Nat) (hr : Reachable cfg s) (hc : 1 ≤ refcount cfg s pa)
      (h : kfree cfg pa s = .ok s') : Reachable cfg s'
  | add (s : KState) (pa : Nat) (hr : Reachable cfg s)
      (hc : 1 ≤ refcount cfg s pa) (hlt : refcount cfg s pa < INT_MAX) :
      Reachable cfg (add_the_reference cfg pa s)
  | dec (s : KState) (pa : Nat) (hr : Reachable cfg s) :
      Reachable cfg (decreasereferences_and_check cfg pa s).2

/-- States reachable from initialization by `kalloc` and by `kfree` of a frame
that is currently allocated. -/
inductive ReachableAllocFree (cfg : Config) : KState → Prop where
  | init (s0 s : KState) (hb : Boot s0) (h : kinit cfg s0 = .ok s) :
      ReachableAllocFree cfg s
  | kalloc (s : KState) (hr : ReachableAllocFree cfg s) :
      ReachableAllocFree cfg (kalloc cfg s).2
  | kfree (s s' : KState) (pa : Nat) (hr : ReachableAllocFree cfg s)
      (hc : 1 ≤ refcount cfg s pa) (h : kfree cfg pa s = .ok s') :
      ReachableAllocFree cfg s'

/-- Free-list part of the pool invariant: the free list is `l` and every frame
on it has share count `0` or `-1`. -/
def FreeInv (cfg : Config) (s : KState) (l : List Nat) : Prop :=
  FreeListIs cfg s l ∧ ∀ p ∈ l, refcount cfg s p = 0 ∨ refcount cfg s p = -1

/-- States reachable from initialization by `kalloc`, `kfree` of a frame
whose share count is at least `1`, `add_the_reference` on a frame whose share
count is at least `1`, and `decreasereferences_and_check`. -/
inductive ReachableFromCalls (cfg : Config) : KState → Prop where
  | init (s0 s : KState) (hb : Boot s0) (h : kinit cfg s0 = .ok s) :
      ReachableFromCalls cfg s
  | kalloc (s : KState) (hr : ReachableFromCalls cfg s) :
      ReachableFromCalls cfg (kalloc cfg s).2
  | kfree (s s' : KState) (pa : Nat) (hr : ReachableFromCalls cfg s)
      (hc : 1 ≤ refcount cfg s pa) (h : kfree cfg pa s = .ok s') :
      ReachableFromCalls cfg s'
  | add (s : KState) (pa : Nat) (hr : ReachableFromCalls cfg s)
      (hc : 1 ≤ refcount cfg s pa) :
      ReachableFromCalls cfg (add_the_reference cfg pa s)
  | dec (s : KState) (pa : Nat) (hr : ReachableFromCalls cfg s) :
      ReachableFromCalls cfg (decreasereferences_and_check cfg pa s).2

/-- The frames that `freerange(pa_start, pa_end)` visits, in loop order: the
`n` consecutive pages from `p`. -/
def framesFrom (p : Nat) : Nat → List Nat
  | 0 => []
  | n + 1 => p :: framesFrom (p + PGSIZE) n

/-- Number of whole frames in `[PGROUNDUP(pa_start), pa_end)`. -/
def frameCount (pa_start pa_end : Nat) : Nat :=
  (pa_end - PGROUNDUP pa_start) / PGSIZE

/-- The managed frames of the configuration, in address order. -/
def poolFrames (cfg : Config) : List Nat :=
  framesFrom (PGROUNDUP cfg.endAddr) (frameCount cfg.endAddr cfg.PHYSTOP)

/-- Number of managed frames whose share count is at least `1`. -/
def allocatedCount (cfg : Config) (s : KState) : Nat :=
  ((poolFrames cfg).filter (fun p => decide (1 ≤ refcount cfg s p))).length

/-- Result of `n` consecutive calls of `kalloc`: the returned pointers, in
call order, and the final state. -/
def kallocN (cfg : Config) : Nat → KState → List Nat × KState
  | 0, s => ([], s)
  | n + 1, s =>
    let r := kalloc cfg s
    let rest := kallocN cfg n r.2
    (r.1 :: rest.1, rest.2)

/-- The state of an outcome: the returned state, or the state at the abort. -/
def Outcome.state : Outcome KState → KState
  | .ok s => s
  | .panic _ s => s

/-! ## Sample configuration and states used by the concrete checks -/

/-- A small configuration: two managed frames, at `4096` and `8192`. -/
def cfg2 : Config where
  endAddr := 4000
  PHYSTOP := 12288
  MAXREFERENCES := 3
  PA2REF := fun pa => (pa / 4096 : Nat)
  MAXVA := 2 ^ 38
  PTE_COW := 256

/-- A zero-initialised state with an empty page table. -/
def boot0 : KState where
  mem := fun _ => 0
  freelist := 0
  references := fun _ => CInt.wrap 0
  pagetable := fun _ => none
  pagefaultcount := 0

/-- A state of the two-frame configuration in which frame 4096 is free and
frame 8192 is in use with share count `n`, holds the bytes `a % 256`, and is
mapped at virtual page 1 by a valid, user, read-only, copy-on-write entry
(`PA2PTE(8192) | PTE_COW | PTE_U | PTE_R | PTE_V = 2323`). -/
def cowState (n : Int) : KState where
  mem := fun a => if 8192 ≤ a ∧ a < 12288 then a % 256 else 0
  freelist := 4096
  references := setRef (fun _ => CInt.wrap 0) 2 (CInt.wrap n)
  pagetable := fun k => if k = 1 then some 2323 else none
  pagefaultcount := 0

/-- The sample state `cowState n` with an empty free list. -/
def cowStateEmpty (n : Int) : KState :=
  { cowState n with freelist := 0 }

/-- Result of `k` successive calls `add_the_reference(pa)`. -/
def addN (cfg : Config) (pa : Nat) : Nat → KState → KState
  | 0, s => s
  | k + 1, s => addN cfg pa k (add_the_reference cfg pa s)

/-- Result of `k` successive calls `decreasereferences_and_check(pa)`: the
returned values, in call order, and the final state. -/
def decN (cfg : Config) (pa : Nat) : Nat → KState → List Int × KState
  | 0, s => ([], s)
  | k + 1, s =>
    let r := decreasereferences_and_check cfg pa s
    let rest := decN cfg pa k r.2
    (r.1 :: rest.1, rest.2)

/-- Result of `k` successive calls `copyanddecreasereferences(pa)`: the
returned pointers, in call order, and the final state. -/
def resolveN (cfg : Config) (pa : Nat) : Nat → KState → List Nat × KState
  | 0, s => ([], s)
  | k + 1, s =>
    let r := copyanddecreasereferences cfg pa s
    let rest := resolveN cfg pa k r.2
    (r.1 :: rest.1, rest.2)

/-- A configuration with four managed frames, at `4096`, `8192`, `12288` and
`16384`. -/
def cfg4 : Config where
  endAddr := 4096
  PHYSTOP := 20480
  MAXREFERENCES := 5
  PA2REF := fun pa => (pa / 4096 : Nat)
  MAXVA := 2 ^ 38
  PTE_COW := 256

/-! ## Lock events -/

/-- The two spinlocks of the file: `kmem.lock` and `Ref.lock`. -/
inductive Lock where
  | kmem : Lock
  | ref : Lock
  deriving DecidableEq

/-- What one statement of the source does to the locks and to the two shared
structures: `acquire`, `release`, a read or write of the free list
(`kmem.freelist` or a link `r->next`), a read or write of an entry of
`Ref.references`. -/
inductive Event where
  | acquire (l : Lock) : Event
  | release (l : Lock) : Event
  | freelistAccess : Event
  | refAccess : Event
  deriving DecidableEq

/-- Events of `kfree(pa)` in program order (lines 81-100): nothing before a
panic; otherwise `acquire(&Ref.lock)`, the decrement-and-test, `release`, and
on the releasing path `acquire(&kmem.lock)`, `r->next = kmem.freelist`,
`kmem.freelist = r`, `release(&kmem.lock)`. -/
def kfreeEvents (cfg : Config) (pa : Nat) (s : KState) : List Event :=
  if pa % PGSIZE ≠ 0 ∨ pa < cfg.endAddr ∨ pa ≥ cfg.PHYSTOP then
    []
  else if (CInt.wrap ((s.references (cfg.PA2REF pa)).val - 1)).val > 0 then
    [.acquire .ref, .refAccess, .release .ref]
  else
    [.acquire .ref, .refAccess, .release .ref,
      .acquire .kmem, .freelistAccess, .freelistAccess, .release .kmem]

/-- Events of `kalloc()` in program order (lines 119-128):
`acquire(&kmem.lock)`, `r = kmem.freelist`, for a non-null `r` the update
`kmem.freelist = r->next`, `release(&kmem.lock)`, and for a non-null `r` the
assignment `Ref.references[PA2REF(r)] = 1`. -/
def kallocEvents (s : KState) : List Event :=
  [.acquire .kmem, .freelistAccess]
    ++ (if s.freelist ≠ 0 then [.freelistAccess] else [])
    ++ [.release .kmem]
    ++ (if s.freelist ≠ 0 then [.refAccess] else [])

/-- Events of `add_the_reference(pa)` in program order (lines 133-139). -/
def addEvents (cfg : Config) (pa : Nat) : List Event :=
  if cfg.PA2REF pa < 0 ∨ cfg.PA2REF pa ≥ cfg.MAXREFERENCES then
    []
  else
    [.acquire .ref, .refAccess, .release .ref]

/-- Events of `decreasereferences_and_check(pa)` in program order (lines
147-159): the test reads the count, the decrement accesses it again. -/
def decEvents (cfg : Config) (pa : Nat) (s : KState) : List Event :=
  if cfg.PA2REF pa < 0 ∨ cfg.PA2REF pa ≥ cfg.MAXREFERENCES then
    []
  else if (s.references (cfg.PA2REF pa)).val ≤ 1 then
    [.acquire .ref, .refAccess, .release .ref]
  else
    [.acquire .ref, .refAccess, .refAccess, .release .ref]

/-- Lock discipline of an event sequence, started with the given locks held
(`k`: `kmem.lock`, `r`: `Ref.lock`): a lock is never taken while the other one
is held, the free list is only accessed with `kmem.lock` held, and a share
count is only accessed with `Ref.lock` held. -/
def disciplined : Bool → Bool → List Event → Bool
  | _, _, [] => true
  | _, r, .acquire .kmem :: es => !r && disciplined true r es
  | k, _, .acquire .ref :: es => !k && disciplined k true es
  | _, r, .release .kmem :: es => disciplined false r es
  | k, _, .release .ref :: es => disciplined k false es
  | k, r, .freelistAccess :: es => k && disciplined k r es
  | k, r, .refAccess :: es => r && disciplined k r es

/-! ## Basic facts: `int` values and memory -/

theorem CInt.wrap_val (x : Int) (h1 : -2147483648 ≤ x) (h2 : x ≤ 2147483647) :
    (CInt.wrap x).val = x := by
  simp only [CInt.wrap]
  omega

theorem CInt.wrap_one_val : (CInt.wrap 1).val = 1 := by
  decide

theorem loadLE_congr (m1 m2 : Nat → Nat) (n a : Nat)
    (h : ∀ i, i < n → m1 (a + i) = m2 (a + i)) : loadLE m1 a n = loadLE m2 a n := by
  induction n generalizing a with
  | zero => rfl
  | succ n ih =>
    have h0 := h 0 (by omega)
    simp only [Nat.add_zero] at h0
    have h1 : ∀ i, i < n → m1 (a + 1 + i) = m2 (a + 1 + i) := by
      intro i hi
      have := h (1 + i) (by omega)
      simpa [Nat.add_assoc] using this
    simp only [loadLE, h0, ih (a + 1) h1]

theorem loadLE_of_bytes (m : Nat → Nat) (n a v : Nat)
    (h : ∀ i, i < n → m (a + i) % 256 = v / 256 ^ i % 256) :
    loadLE m a n = v % 256 ^ n := by
  induction n generalizing a v with
  | zero => simp [loadLE, Nat.mod_one]
  | succ n ih =>
    have h0 := h 0 (by omega)
    simp only [Nat.add_zero, pow_zero, Nat.div_one] at h0
    have h1 : ∀ i, i < n → m (a + 1 + i) % 256 = v / 256 / 256 ^ i % 256 := by
      intro i hi
      have := h (1 + i) (by omega)
      rw [Nat.div_div_eq_div_mul, ← pow_succ']
      rw [Nat.add_comm i 1]
      simpa [Nat.add_assoc] using this
    simp only [loadLE, h0, ih (a + 1) (v / 256) h1]
    rw [pow_succ', Nat.mod_mul]

theorem load64_store64 (m : Nat → Nat) (a v : Nat) (hv : v < 2 ^ 64) :
    load64 (store64 m a v) a = v := by
  unfold load64 store64
  rw [loadLE_of_bytes (storeLE m a v 8) 8 a v]
  · exact Nat.mod_eq_of_lt (by norm_num at hv ⊢; exact hv)
  · intro i hi
    simp only [storeLE]
    rw [if_pos (by omega)]
    simp

theorem store64_outside (m : Nat → Nat) (a v x : Nat) (h : x < a ∨ a + 8 ≤ x) :
    store64 m a v x = m x := by
  simp only [store64, storeLE]
  rw [if_neg (by omega)]

theorem memset_inside (m : Nat → Nat) (dst c n x : Nat) (h : dst ≤ x ∧ x < dst + n) :
    memset m dst c n x = c % 256 := by
  simp only [memset]
  rw [if_pos h]

theorem memset_outside (m : Nat → Nat) (dst c n x : Nat) (h : x < dst ∨ dst + n ≤ x) :
    memset m dst c n x = m x := by
  simp only [memset]
  rw [if_neg (by omega)]

theorem isFreeList_congr (m1 m2 : Nat → Nat) (l : List Nat) (h : Nat)
    (hagree : ∀ p ∈ l, ∀ i, i < 8 → m1 (p + i) = m2 (p + i))
    (hl : isFreeList m1 h l) : isFreeList m2 h l := by
  induction l generalizing h with
  | nil => exact hl
  | cons p l ih =>
    obtain ⟨h1, h2, h3⟩ := hl
    refine ⟨h1, h2, ?_⟩
    have hp : load64 m2 p = load64 m1 p := by
      unfold load64
      exact loadLE_congr m2 m1 8 p (fun i hi => (hagree p (List.mem_cons_self p l) i hi).symm)
    rw [hp]
    exact ih _ (fun q hq i hi => hagree q (List.mem_cons_of_mem p hq) i hi) h3

theorem isFreeList_unique (m : Nat → Nat) (l1 l2 : List Nat) (h : Nat)
    (h1 : isFreeList m h l1) (h2 : isFreeList m h l2) : l1 = l2 := by
  induction l1 generalizing h l2 with
  | nil =>
    cases l2 with
    | nil => rfl
    | cons q l2 =>
      obtain ⟨e, hq, -⟩ := h2
      exact absurd (e.symm.trans h1) hq
  | cons p l1 ih =>
    cases l2 with
    | nil =>
      obtain ⟨e, hp, -⟩ := h1
      exact absurd (e.symm.trans h2) hp
    | cons q l2 =>
      obtain ⟨e1, -, t1⟩ := h1
      obtain ⟨e2, -, t2⟩ := h2
      have hpq : p = q := e1.symm.trans e2
      subst hpq
      rw [ih l2 _ t1 t2]

/-! ## Basic facts: `kalloc` and `kfree` on a well-formed free list -/

theorem managed_ne_zero (cfg : Config) (hv : cfg.Valid) (p : Nat) (h : managed cfg p) :
    p ≠ 0 := by
  have := hv.end_pos
  unfold managed at h
  omega

theorem managed_lt_pow (cfg : Config) (hv : cfg.Valid) (p : Nat) (h : managed cfg p) :
    p < 2 ^ 64 := by
  have := hv.phystop_fits
  unfold managed at h
  omega

theorem page_disjoint (p q i : Nat) (hp : p % PGSIZE = 0) (hq : q % PGSIZE = 0)
    (hne : q ≠ p) (hi : i < PGSIZE) : q + i < p ∨ p + PGSIZE ≤ q + i := by
  simp only [PGSIZE] at *
  omega

theorem freelist_lt_pow (cfg : Config) (hv : cfg.Valid) (s : KState) (l : List Nat)
    (h : FreeListIs cfg s l) : s.freelist < 2 ^ 64 := by
  obtain ⟨h1, -, h3⟩ := h
  cases l with
  | nil =>
    have : s.freelist = 0 := h1
    rw [this]
    norm_num
  | cons q l =>
    rw [h1.1]
    exact managed_lt_pow cfg hv q (h3 q (List.mem_cons_self q l))

theorem kalloc_empty (cfg : Config) (s : KState) (h : s.freelist = 0) :
    kalloc cfg s = (0, s) := by
  simp [kalloc, h]

theorem kalloc_nonempty (cfg : Config) (s : KState) (h : s.freelist ≠ 0) :
    kalloc cfg s = (s.freelist,
      { s with
          freelist := load64 s.mem s.freelist
          mem := memset s.mem s.freelist 69 PGSIZE
          references := setRef s.references (cfg.PA2REF s.freelist) (CInt.wrap 1) }) := by
  simp [kalloc, h]

theorem freeListIs_kalloc (cfg : Config) (s : KState) (p : Nat) (l : List Nat)
    (h : FreeListIs cfg s (p :: l)) :
    (kalloc cfg s).1 = p ∧ FreeListIs cfg (kalloc cfg s).2 l := by
  obtain ⟨⟨e, hp, hl⟩, hnd, hm⟩ := h
  have hne : s.freelist ≠ 0 := by rw [e]; exact hp
  rw [kalloc_nonempty cfg s hne]
  refine ⟨e, ?_, (List.nodup_cons.mp hnd).2, fun q hq => hm q (List.mem_cons_of_mem p hq)⟩
  simp only [e]
  refine isFreeList_congr s.mem _ l _ ?_ hl
  intro q hq i hi
  have hqp : q ≠ p := by
    rintro rfl
    exact (List.nodup_cons.mp hnd).1 hq
  have hd := page_disjoint p q i (hm p (List.mem_cons_self p l)).1
    (hm q (List.mem_cons_of_mem p hq)).1 hqp (by simp only [PGSIZE]; omega)
  exact (memset_outside s.mem p 69 PGSIZE (q + i) hd).symm

theorem kfree_panic (cfg : Config) (pa : Nat) (s : KState) (h : ¬ managed cfg pa) :
    kfree cfg pa s = .panic "kfree" s := by
  unfold managed at h
  unfold kfree
  simp only
  rw [if_pos (by omega)]

theorem kfree_keep (cfg : Config) (pa : Nat) (s : KState) (h : managed cfg pa)
    (hc : 2 ≤ refcount cfg s pa) :
    kfree cfg pa s = .ok
      { s with
          references :=
            setRef s.references (cfg.PA2REF pa) (CInt.wrap (refcount cfg s pa - 1)) } := by
  unfold managed at h
  unfold refcount at hc
  have hhi := (s.references (cfg.PA2REF pa)).hi
  unfold kfree
  simp only [refcount]
  rw [if_neg (by omega), if_pos]
  rw [CInt.wrap_val _ (by omega) (by omega)]
  omega

theorem kfree_release (cfg : Config) (pa : Nat) (s : KState) (h : managed cfg pa)
    (hc : refcount cfg s pa ≤ 1) (hc' : -2147483648 < refcount cfg s pa) :
    kfree cfg pa s = .ok
      { s with
          references :=
            setRef s.references (cfg.PA2REF pa) (CInt.wrap (refcount cfg s pa - 1))
          mem := store64 (memset s.mem pa 1 PGSIZE) pa s.freelist
          freelist := pa } := by
  unfold managed at h
  unfold refcount at hc hc'
  unfold kfree
  simp only [refcount]
  rw [if_neg (by omega), if_neg]
  rw [CInt.wrap_val _ (by omega) (by omega)]
  omega

theorem freeListIs_push (cfg : Config) (hv : cfg.Valid) (s : KState) (pa : Nat)
    (l : List Nat) (refs : Int → CInt) (h : FreeListIs cfg s l) (hm : managed cfg pa)
    (hnot : pa ∉ l) :
    FreeListIs cfg
      { s with
          references := refs
          mem := store64 (memset s.mem pa 1 PGSIZE) pa s.freelist
          freelist := pa } (pa :: l) := by
  have hlt := freelist_lt_pow cfg hv s l h
  obtain ⟨hl, hnd, hmem⟩ := h
  refine ⟨⟨rfl, managed_ne_zero cfg hv pa hm, ?_⟩, List.nodup_cons.mpr ⟨hnot, hnd⟩, ?_⟩
  · simp only
    rw [load64_store64 _ _ _ hlt]
    refine isFreeList_congr s.mem _ l _ ?_ hl
    intro q hq i hi
    have hqp : q ≠ pa := by
      rintro rfl
      exact hnot hq
    have hd := page_disjoint pa q i hm.1 (hmem q hq).1 hqp (by simp only [PGSIZE]; omega)
    rw [store64_outside _ _ _ _ (by simp only [PGSIZE] at hd; omega),
      memset_outside _ _ _ _ _ hd]
  · intro q hq
    rcases List.mem_cons.mp hq with rfl | hq
    · exact hm
    · exact hmem q hq

/-! ## Preservation of the pool invariant -/

theorem setRef_same (refs : Int → CInt) (i : Int) (v : CInt) : setRef refs i v i = v := by
  simp [setRef]

theorem setRef_other (refs : Int → CInt) (i j : Int) (v : CInt) (h : j ≠ i) :
    setRef refs i v j = refs j := by
  simp [setRef, h]

theorem poolInv_not_mem (cfg : Config) (s : KState) (l : List Nat) (pa : Nat)
    (h : PoolInv cfg s l) (hc : 1 ≤ refcount cfg s pa) : pa ∉ l := by
  intro hmem
  have := h.2.1 pa hmem
  omega

theorem poolInv_setRef (cfg : Config) (s s' : KState) (l : List Nat) (i : Int) (v : CInt)
    (h : PoolInv cfg s l) (hmem : s'.mem = s.mem) (hfl : s'.freelist = s.freelist)
    (hrefs : s'.references = setRef s.references i v)
    (hold : 1 ≤ (s.references i).val) (hnew : 1 ≤ v.val) : PoolInv cfg s' l := by
  obtain ⟨⟨hl, hnd, hm⟩, hfree, halloc⟩ := h
  refine ⟨⟨?_, hnd, hm⟩, ?_, ?_⟩
  · rw [hmem, hfl]
    exact hl
  · intro q hq
    have hq0 := hfree q hq
    unfold refcount at hq0 ⊢
    have hne : cfg.PA2REF q ≠ i := by
      rintro rfl
      omega
    rw [hrefs, setRef_other _ _ _ _ hne]
    exact hq0
  · intro q hqm hq
    have hq1 := halloc q hqm hq
    unfold refcount at hq1 ⊢
    rw [hrefs]
    by_cases hqi : cfg.PA2REF q = i
    · rw [hqi, setRef_same]
      exact hnew
    · rw [setRef_other _ _ _ _ hqi]
      exact hq1

theorem poolInv_kalloc (cfg : Config) (hv : cfg.Valid) (s : KState) (l : List Nat)
    (h : PoolInv cfg s l) : PoolInv cfg (kalloc cfg s).2 l.tail := by
  cases l with
  | nil =>
    have h0 : s.freelist = 0 := h.1.1
    rw [kalloc_empty cfg s h0]
    exact h
  | cons p l =>
    obtain ⟨hfl, hfree, halloc⟩ := h
    have hk := freeListIs_kalloc cfg s p l hfl
    have hne : s.freelist ≠ 0 := by
      rw [hfl.1.1]
      exact hfl.1.2.1
    have hp : s.freelist = p := hfl.1.1
    have hrefs : (kalloc cfg s).2.references
        = setRef s.references (cfg.PA2REF p) (CInt.wrap 1) := by
      rw [kalloc_nonempty cfg s hne, hp]
    refine ⟨hk.2, ?_, ?_⟩
    · intro q hq
      have hqp : q ≠ p := by
        rintro rfl
        exact (List.nodup_cons.mp hfl.2.1).1 hq
      have hne' : cfg.PA2REF q ≠ cfg.PA2REF p := fun e =>
        hqp (hv.ref_inj q p (hfl.2.2 q (List.mem_cons_of_mem p hq))
          (hfl.2.2 p (List.mem_cons_self p l)) e)
      unfold refcount
      rw [hrefs, setRef_other _ _ _ _ hne']
      exact hfree q (List.mem_cons_of_mem p hq)
    · intro q hqm hq
      unfold refcount
      rw [hrefs]
      by_cases hqp : q = p
      · rw [hqp, setRef_same, CInt.wrap_one_val]
      · have hne' : cfg.PA2REF q ≠ cfg.PA2REF p := fun e =>
          hqp (hv.ref_inj q p hqm (hfl.2.2 p (List.mem_cons_self p l)) e)
        rw [setRef_other _ _ _ _ hne']
        apply halloc q hqm
        intro hmem
        rcases List.mem_cons.mp hmem with e | e
        · exact hqp e
        · exact hq e

theorem poolInv_kfree (cfg : Config) (hv : cfg.Valid) (s s' : KState) (l : List Nat)
    (pa : Nat) (h : PoolInv cfg s l) (hc : 1 ≤ refcount cfg s pa)
    (hk : kfree cfg pa s = .ok s') :
    (2 ≤ refcount cfg s pa ∧ PoolInv cfg s' l) ∨
      (refcount cfg s pa = 1 ∧ PoolInv cfg s' (pa :: l)) := by
  have hm : managed cfg pa := by
    by_contra hn
    rw [kfree_panic cfg pa s hn] at hk
    cases hk
  have hnot := poolInv_not_mem cfg s l pa h hc
  have hhi := (s.references (cfg.PA2REF pa)).hi
  by_cases h2 : 2 ≤ refcount cfg s pa
  · left
    refine ⟨h2, ?_⟩
    rw [kfree_keep cfg pa s hm h2] at hk
    injection hk with hk
    subst hk
    refine poolInv_setRef cfg s _ l (cfg.PA2REF pa) _ h rfl rfl rfl hc ?_
    unfold refcount at h2 ⊢
    rw [CInt.wrap_val _ (by omega) (by omega)]
    omega
  · right
    have h1 : refcount cfg s pa = 1 := by omega
    refine ⟨h1, ?_⟩
    rw [kfree_release cfg pa s hm (by omega) (by omega)] at hk
    injection hk with hk
    subst hk
    obtain ⟨hfl, hfree, halloc⟩ := h
    refine ⟨freeListIs_push cfg hv s pa l _ hfl hm hnot, ?_, ?_⟩
    · intro q hq
      unfold refcount
      simp only
      rcases List.mem_cons.mp hq with rfl | hq
      · unfold refcount at h1
        rw [setRef_same, h1]
        left
        decide
      · have hne' : cfg.PA2REF q ≠ cfg.PA2REF pa := fun e =>
          (fun hqp : q = pa => hnot (hqp ▸ hq)) (hv.ref_inj q pa (hfl.2.2 q hq) hm e)
        rw [setRef_other _ _ _ _ hne']
        exact hfree q hq
    · intro q hqm hq
      unfold refcount
      simp only
      have hqp : q ≠ pa := fun e => hq (e ▸ List.mem_cons_self pa l)
      have hne' : cfg.PA2REF q ≠ cfg.PA2REF pa := fun e => hqp (hv.ref_inj q pa hqm hm e)
      rw [setRef_other _ _ _ _ hne']
      exact halloc q hqm (fun hmem => hq (List.mem_cons_of_mem pa hmem))

theorem poolInv_add (cfg : Config) (s : KState) (l : List Nat) (pa : Nat)
    (h : PoolInv cfg s l) (hc : 1 ≤ refcount cfg s pa)
    (hlt : refcount cfg s pa < INT_MAX) : PoolInv cfg (add_the_reference cfg pa s) l := by
  unfold INT_MAX at hlt
  unfold add_the_reference
  simp only
  split
  · exact h
  · refine poolInv_setRef cfg s _ l (cfg.PA2REF pa) _ h rfl rfl rfl hc ?_
    unfold refcount at hc hlt
    rw [CInt.wrap_val _ (by omega) (by omega)]
    omega

theorem poolInv_dec (cfg : Config) (s : KState) (l : List Nat) (pa : Nat)
    (h : PoolInv cfg s l) : PoolInv cfg (decreasereferences_and_check cfg pa s).2 l := by
  unfold decreasereferences_and_check
  simp only
  split
  · exact h
  · split
    · exact h
    · rename_i h1 h2
      have hhi := (s.references (cfg.PA2REF pa)).hi
      refine poolInv_setRef cfg s _ l (cfg.PA2REF pa) _ h rfl rfl rfl (by omega) ?_
      rw [CInt.wrap_val _ (by omega) (by omega)]
      omega

/-! ## Initialization: `freerange` and `kinit` -/

theorem mem_framesFrom (p n q : Nat) :
    q ∈ framesFrom p n ↔ ∃ k, k < n ∧ q = p + k * PGSIZE := by
  induction n generalizing p with
  | zero => simp [framesFrom]
  | succ n ih =>
    simp only [framesFrom, List.mem_cons, ih]
    constructor
    · rintro (rfl | ⟨k, hk, rfl⟩)
      · exact ⟨0, by omega, by omega⟩
      · exact ⟨k + 1, by omega, by simp only [PGSIZE]; omega⟩
    · rintro ⟨k, hk, rfl⟩
      cases k with
      | zero => left; omega
      | succ k => right; exact ⟨k, by omega, by simp only [PGSIZE]; omega⟩

theorem mem_framesFrom_iff (p pa_end q : Nat) (hp : p % PGSIZE = 0) :
    q ∈ framesFrom p ((pa_end - p) / PGSIZE) ↔
      q % PGSIZE = 0 ∧ p ≤ q ∧ q + PGSIZE ≤ pa_end := by
  rw [mem_framesFrom]
  simp only [PGSIZE] at *
  constructor
  · rintro ⟨k, hk, rfl⟩
    omega
  · rintro ⟨h1, h2, h3⟩
    exact ⟨(q - p) / 4096, by omega, by omega⟩

theorem length_framesFrom (p n : Nat) : (framesFrom p n).length = n := by
  induction n generalizing p with
  | zero => rfl
  | succ n ih => simp [framesFrom, ih]

theorem nodup_framesFrom (p n : Nat) : (framesFrom p n).Nodup := by
  induction n generalizing p with
  | zero => simp [framesFrom]
  | succ n ih =>
    simp only [framesFrom, List.nodup_cons]
    refine ⟨?_, ih _⟩
    rw [mem_framesFrom]
    rintro ⟨k, -, hk⟩
    simp only [PGSIZE] at hk
    omega

theorem PGROUNDUP_aligned (a : Nat) : PGROUNDUP a % PGSIZE = 0 := by
  simp only [PGROUNDUP, PGSIZE]
  omega

theorem PGROUNDUP_ge (a : Nat) : a ≤ PGROUNDUP a := by
  simp only [PGROUNDUP, PGSIZE]
  omega

/-- Effect of the `freerange` loop started at an aligned `p` on a state whose
free list is `l` (all below `p`) and where the frames still to be visited have
share count `0`: every visited frame is pushed, each with share count `-1`. -/
theorem freerangeLoop_spec (cfg : Config) (hv : cfg.Valid) (pa_end : Nat)
    (hend : pa_end ≤ cfg.PHYSTOP) (n : Nat) :
    ∀ (p : Nat) (s : KState) (l : List Nat), p % PGSIZE = 0 → cfg.endAddr ≤ p →
      (pa_end - p) / PGSIZE = n → FreeListIs cfg s l → (∀ q ∈ l, q < p) →
      (∀ q ∈ framesFrom p n, refcount cfg s q = 0) →
      ∃ s', freerangeLoop cfg pa_end p s = .ok s' ∧
        FreeListIs cfg s' ((framesFrom p n).reverse ++ l) ∧
        (∀ q ∈ framesFrom p n, refcount cfg s' q = -1) ∧
        (∀ i, (∀ q ∈ framesFrom p n, cfg.PA2REF q ≠ i) → s'.references i = s.references i) ∧
        s'.pagetable = s.pagetable ∧ s'.pagefaultcount = s.pagefaultcount := by
  induction n with
  | zero =>
    intro p s l hp hge hn hfl hlt hz
    refine ⟨s, ?_, ?_, ?_, ?_, rfl, rfl⟩
    · rw [freerangeLoop, if_neg]
      simp only [PGSIZE] at hn ⊢
      omega
    · simpa [framesFrom] using hfl
    · intro q hq
      simp [framesFrom] at hq
    · intro i _
      rfl
  | succ n ih =>
    intro p s l hp hge hn hfl hlt hz
    have hle : p + PGSIZE ≤ pa_end := by
      simp only [PGSIZE] at hn ⊢
      omega
    have hm : managed cfg p := ⟨hp, hge, by simp only [PGSIZE] at hle; omega⟩
    have hp0 : refcount cfg s p = 0 := hz p (by simp [framesFrom])
    have hnot : p ∉ l := fun hmem => Nat.lt_irrefl p (hlt p hmem)
    have hk := kfree_release cfg p s hm (by omega) (by omega)
    have hfl1 := freeListIs_push cfg hv s p l
      (setRef s.references (cfg.PA2REF p) (CInt.wrap (refcount cfg s p - 1))) hfl hm hnot
    have hmanaged : ∀ q ∈ framesFrom (p + PGSIZE) n, managed cfg q := by
      intro q hq
      have hn' : (pa_end - (p + PGSIZE)) / PGSIZE = n := by
        simp only [PGSIZE] at hn ⊢
        omega
      rw [← hn', mem_framesFrom_iff _ _ _ (by simp only [PGSIZE] at hp ⊢; omega)] at hq
      refine ⟨hq.1, ?_, ?_⟩
      · simp only [PGSIZE] at hq
        omega
      · simp only [PGSIZE] at hq
        omega
    have hgt : ∀ q ∈ framesFrom (p + PGSIZE) n, q ≠ p := by
      intro q hq
      rw [mem_framesFrom] at hq
      obtain ⟨k, -, rfl⟩ := hq
      simp only [PGSIZE]
      omega
    obtain ⟨s', h1, h2, h3, h4, h5, h6⟩ := ih (p + PGSIZE) _ (p :: l)
      (by simp only [PGSIZE] at hp ⊢; omega) (by omega)
      (by simp only [PGSIZE] at hn ⊢; omega) hfl1
      (by
        intro q hq
        rcases List.mem_cons.mp hq with rfl | hq
        · simp only [PGSIZE]
          omega
        · have := hlt q hq
          omega)
      (by
        intro q hq
        have hne : cfg.PA2REF q ≠ cfg.PA2REF p := fun e =>
          hgt q hq (hv.ref_inj q p (hmanaged q hq) hm e)
        unfold refcount
        simp only
        rw [setRef_other _ _ _ _ hne]
        exact hz q (by simp [framesFrom, hq]))
    refine ⟨s', ?_, ?_, ?_, ?_, ?_, ?_⟩
    · rw [freerangeLoop, if_pos hle, hk]
      exact h1
    · simpa [framesFrom, List.append_assoc] using h2
    · intro q hq
      simp only [framesFrom, List.mem_cons] at hq
      rcases hq with rfl | hq
      · unfold refcount
        rw [h4 _ (fun r hr e => hgt r hr (hv.ref_inj r q (hmanaged r hr) hm e))]
        simp only
        rw [setRef_same, hp0]
        decide
      · exact h3 q hq
    · intro i hi
      rw [h4 i (fun q hq => hi q (by simp [framesFrom, hq]))]
      simp only
      exact setRef_other _ _ _ _ (fun e => hi p (by simp [framesFrom]) e.symm)
    · rw [h5]
    · rw [h6]

theorem freerange_spec (cfg : Config) (hv : cfg.Valid) (pa_start pa_end : Nat)
    (s0 : KState) (hb : Boot s0) (hs : cfg.endAddr ≤ pa_start)
    (he : pa_end ≤ cfg.PHYSTOP) :
    ∃ s, freerange cfg pa_start pa_end s0 = .ok s ∧
      FreeListIs cfg s
        (framesFrom (PGROUNDUP pa_start) (frameCount pa_start pa_end)).reverse ∧
      (∀ q ∈ framesFrom (PGROUNDUP pa_start) (frameCount pa_start pa_end),
        refcount cfg s q = -1) ∧
      s.pagetable = s0.pagetable ∧ s.pagefaultcount = s0.pagefaultcount := by
  have h0 : FreeListIs cfg s0 [] := ⟨hb.1, List.nodup_nil, fun p hp => by simp at hp⟩
  obtain ⟨s, h1, h2, h3, -, h5, h6⟩ := freerangeLoop_spec cfg hv pa_end he
    (frameCount pa_start pa_end) (PGROUNDUP pa_start) s0 [] (PGROUNDUP_aligned pa_start)
    (le_trans hs (PGROUNDUP_ge pa_start)) rfl h0 (fun q hq => by simp at hq)
    (fun q _ => hb.2 _)
  exact ⟨s, h1, by simpa using h2, h3, h5, h6⟩

theorem mem_poolFrames (cfg : Config) (hv : cfg.Valid) (q : Nat) :
    q ∈ poolFrames cfg ↔ managed cfg q := by
  unfold poolFrames frameCount
  rw [mem_framesFrom_iff _ _ _ (PGROUNDUP_aligned _)]
  have h1 := hv.phystop_aligned
  unfold managed
  simp only [PGROUNDUP, PGSIZE] at *
  omega

theorem kinit_spec (cfg : Config) (hv : cfg.Valid) (s0 : KState) (hb : Boot s0) :
    ∃ s, kinit cfg s0 = .ok s ∧ PoolInv cfg s (poolFrames cfg).reverse ∧
      (∀ q, managed cfg q → refcount cfg s q = -1) ∧
      s.pagetable = s0.pagetable ∧ s.pagefaultcount = s0.pagefaultcount := by
  obtain ⟨s, h1, h2, h3, h4, h5⟩ :=
    freerange_spec cfg hv cfg.endAddr cfg.PHYSTOP s0 hb (le_refl _) (le_refl _)
  have hall : ∀ q, managed cfg q → refcount cfg s q = -1 := fun q hq =>
    h3 q ((mem_poolFrames cfg hv q).mpr hq)
  refine ⟨s, h1, ⟨h2, ?_, ?_⟩, hall, h4, h5⟩
  · intro q hq
    right
    exact h3 q (List.mem_reverse.mp hq)
  · intro q hqm hq
    exact absurd (List.mem_reverse.mpr ((mem_poolFrames cfg hv q).mpr hqm)) hq

theorem reachable_poolInv (cfg : Config) (hv : cfg.Valid) (s : KState)
    (h : Reachable cfg s) : ∃ l, PoolInv cfg s l := by
  induction h with
  | init s0 s hb h =>
    obtain ⟨t, ht, hinv, -⟩ := kinit_spec cfg hv s0 hb
    rw [h] at ht
    injection ht with ht
    subst ht
    exact ⟨_, hinv⟩
  | kalloc s _ ih =>
    obtain ⟨l, hl⟩ := ih
    exact ⟨_, poolInv_kalloc cfg hv s l hl⟩
  | kfree s s' pa _ hc h ih =>
    obtain ⟨l, hl⟩ := ih
    rcases poolInv_kfree cfg hv s s' l pa hl hc h with ⟨-, h1⟩ | ⟨-, h1⟩
    · exact ⟨_, h1⟩
    · exact ⟨_, h1⟩
  | add s pa _ hc hlt ih =>
    obtain ⟨l, hl⟩ := ih
    exact ⟨_, poolInv_add cfg s l pa hl hc hlt⟩
  | dec s pa _ ih =>
    obtain ⟨l, hl⟩ := ih
    exact ⟨_, poolInv_dec cfg s l pa hl⟩

theorem reachableAllocFree_reachable (cfg : Config) (s : KState)
    (h : ReachableAllocFree cfg s) : Reachable cfg s := by
  induction h with
  | init s0 s hb h => exact Reachable.init s0 s hb h
  | kalloc s _ ih => exact Reachable.kalloc s ih
  | kfree s s' pa _ hc h ih => exact Reachable.kfree s s' pa ih hc h

theorem poolInv_conservation (cfg : Config) (hv : cfg.Valid) (s : KState) (l : List Nat)
    (h : PoolInv cfg s l) :
    l.length + allocatedCount cfg s = frameCount cfg.endAddr cfg.PHYSTOP := by
  obtain ⟨⟨-, hnd, hm⟩, hfree, halloc⟩ := h
  have hlen : (poolFrames cfg).length = frameCount cfg.endAddr cfg.PHYSTOP :=
    length_framesFrom _ _
  have hsplit := List.length_eq_length_filter_add (l := poolFrames cfg)
    (fun p => decide (1 ≤ refcount cfg s p))
  have hperm : List.Perm l
      ((poolFrames cfg).filter (fun p => ! decide (1 ≤ refcount cfg s p))) := by
    have hnd2 : ((poolFrames cfg).filter
        (fun p => ! decide (1 ≤ refcount cfg s p))).Nodup :=
      List.Nodup.filter _ (nodup_framesFrom _ _)
    refine (List.perm_ext_iff_of_nodup hnd hnd2).mpr ?_
    intro a
    simp only [List.mem_filter, Bool.not_eq_true', decide_eq_false_iff_not, not_le]
    constructor
    · intro ha
      refine ⟨(mem_poolFrames cfg hv a).mpr (hm a ha), ?_⟩
      have := hfree a ha
      omega
    · rintro ⟨ha, hlt⟩
      by_contra hna
      have := halloc a ((mem_poolFrames cfg hv a).mp ha) hna
      omega
  unfold allocatedCount
  rw [hperm.length_eq, ← hlen, hsplit, Nat.add_comm]

/-! ## The sample configuration -/

theorem cfg2_valid : cfg2.Valid where
  end_pos := by decide
  phystop_aligned := by decide
  phystop_fits := by
    simp only [cfg2]
    norm_num
  ref_inj := by
    intro p q hp hq h
    simp only [managed, cfg2, PGSIZE] at *
    omega
  ref_tracked := by
    intro p hp
    simp only [managed, cfg2, PGSIZE] at *
    omega
  cow_not_valid := by decide
  cow_not_writable := by decide
  cow_flag := by decide

theorem boot0_boot : Boot boot0 :=
  ⟨rfl, fun _ => rfl⟩

theorem poolFrames_cfg2 : poolFrames cfg2 = [4096, 8192] := by
  decide

theorem cfg4_valid : cfg4.Valid where
  end_pos := by decide
  phystop_aligned := by decide
  phystop_fits := by
    simp only [cfg4]
    norm_num
  ref_inj := by
    intro p q hp hq h
    simp only [managed, cfg4, PGSIZE] at *
    omega
  ref_tracked := by
    intro p hp
    simp only [managed, cfg4, PGSIZE] at *
    omega
  cow_not_valid := by decide
  cow_not_writable := by decide
  cow_flag := by decide

theorem poolFrames_cfg4 : poolFrames cfg4 = [4096, 8192, 12288, 16384] := by
  decide

theorem kinit_ok_state (cfg : Config) (hv : cfg.Valid) (s0 : KState) (hb : Boot s0) :
    kinit cfg s0 = .ok (kinit cfg s0).state := by
  obtain ⟨s, h, -⟩ := kinit_spec cfg hv s0 hb
  rw [h]
  rfl

theorem reachable_kinit (cfg : Config) (hv : cfg.Valid) (s0 : KState) (hb : Boot s0) :
    Reachable cfg (kinit cfg s0).state :=
  Reachable.init s0 _ hb (kinit_ok_state cfg hv s0 hb)

theorem poolInv_kinit_state (cfg : Config) (hv : cfg.Valid) (s0 : KState) (hb : Boot s0) :
    PoolInv cfg (kinit cfg s0).state (poolFrames cfg).reverse ∧
      ∀ q, managed cfg q → refcount cfg (kinit cfg s0).state q = -1 := by
  obtain ⟨s, h, h1, h2, -⟩ := kinit_spec cfg hv s0 hb
  rw [h]
  exact ⟨h1, h2⟩

/-! ## C3: reference-table invariant -/

/-- C3, as stated, fails: right after `kinit` on a zero-initialised table (two
managed frames, at 4096 and 8192) the state is reachable, its free list is
`[8192, 4096]`, and the free frame 8192 has share count `-1`, not `0`. -/
theorem free_frame_count_after_kinit :
    Reachable cfg2 (kinit cfg2 boot0).state ∧
      FreeListIs cfg2 (kinit cfg2 boot0).state [8192, 4096] ∧
      refcount cfg2 (kinit cfg2 boot0).state 8192 = -1 ∧
      ¬ (∀ l, FreeListIs cfg2 (kinit cfg2 boot0).state l →
          ∀ p ∈ l, refcount cfg2 (kinit cfg2 boot0).state p = 0) := by
  have h := poolInv_kinit_state cfg2 cfg2_valid boot0 boot0_boot
  have hl : (poolFrames cfg2).reverse = [8192, 4096] := by
    rw [poolFrames_cfg2]
    rfl
  rw [hl] at h
  have hc : refcount cfg2 (kinit cfg2 boot0).state 8192 = -1 := h.2 8192 (by decide)
  refine ⟨reachable_kinit cfg2 cfg2_valid boot0 boot0_boot, h.1.1, hc, ?_⟩
  intro hall
  have := hall _ h.1.1 8192 (by simp)
  omega

/-- C3 (amended): in every state reachable from initialization by `kalloc`,
`kfree` of an allocated frame, `add_the_reference` on an allocated frame whose
count is below `INT_MAX`, and `decreasereferences_and_check`, the free list is
a duplicate-free list of managed frames, every frame on it has share count `0`
or `-1`, and every managed frame not on it has share count at least `1`. -/
theorem reachable_refcount_invariant (cfg : Config) (hv : cfg.Valid) (s : KState)
    (h : Reachable cfg s) :
    ∃ l, FreeListIs cfg s l ∧
      (∀ p ∈ l, refcount cfg s p = 0 ∨ refcount cfg s p = -1) ∧
      (∀ p, managed cfg p → p ∉ l → 1 ≤ refcount cfg s p) := by
  obtain ⟨l, hl⟩ := reachable_poolInv cfg hv s h
  exact ⟨l, hl.1, hl.2.1, hl.2.2⟩

/-- Witness for C3 (amended): the invariant in the state reached by `kinit`
followed by one `kalloc` in the two-frame configuration. -/
theorem reachable_refcount_invariant_witness :
    cfg2.Valid ∧ Reachable cfg2 (kalloc cfg2 (kinit cfg2 boot0).state).2 ∧
      ∃ l, FreeListIs cfg2 (kalloc cfg2 (kinit cfg2 boot0).state).2 l ∧
        (∀ p ∈ l, refcount cfg2 (kalloc cfg2 (kinit cfg2 boot0).state).2 p = 0 ∨
          refcount cfg2 (kalloc cfg2 (kinit cfg2 boot0).state).2 p = -1) ∧
        (∀ p, managed cfg2 p → p ∉ l →
          1 ≤ refcount cfg2 (kalloc cfg2 (kinit cfg2 boot0).state).2 p) :=
  ⟨cfg2_valid,
    Reachable.kalloc _ (reachable_kinit cfg2 cfg2_valid boot0 boot0_boot),
    reachable_refcount_invariant cfg2 cfg2_valid _
      (Reachable.kalloc _ (reachable_kinit cfg2 cfg2_valid boot0 boot0_boot))⟩

/-! ## C4: conservation -/

/-- C4: from an initialized pool of `N = frameCount end PHYSTOP` frames, after
every sequence of `kalloc` calls and `kfree` calls on allocated frames, the
free list is a well-formed list and its length plus the number of managed
frames with share count at least `1` equals `N`. -/
theorem conservation (cfg : Config) (hv : cfg.Valid) (s : KState)
    (h : ReachableAllocFree cfg s) :
    ∃ l, FreeListIs cfg s l ∧
      l.length + allocatedCount cfg s = frameCount cfg.endAddr cfg.PHYSTOP := by
  obtain ⟨l, hl⟩ := reachable_poolInv cfg hv s (reachableAllocFree_reachable cfg s h)
  exact ⟨l, hl.1, poolInv_conservation cfg hv s l hl⟩

/-- Witness for C4: conservation after `kinit` and one `kalloc` in the
two-frame configuration. -/
theorem conservation_witness :
    cfg2.Valid ∧ ReachableAllocFree cfg2 (kalloc cfg2 (kinit cfg2 boot0).state).2 ∧
      ∃ l, FreeListIs cfg2 (kalloc cfg2 (kinit cfg2 boot0).state).2 l ∧
        l.length + allocatedCount cfg2 (kalloc cfg2 (kinit cfg2 boot0).state).2
          = frameCount cfg2.endAddr cfg2.PHYSTOP :=
  ⟨cfg2_valid,
    ReachableAllocFree.kalloc _
      (ReachableAllocFree.init boot0 _ boot0_boot
        (kinit_ok_state cfg2 cfg2_valid boot0 boot0_boot)),
    conservation cfg2 cfg2_valid _
      (ReachableAllocFree.kalloc _
        (ReachableAllocFree.init boot0 _ boot0_boot
          (kinit_ok_state cfg2 cfg2_valid boot0 boot0_boot)))⟩

/-! ## C5: exclusivity -/

theorem kalloc_refcount (cfg : Config) (s : KState) (p : Nat) (l : List Nat)
    (h : FreeListIs cfg s (p :: l)) :
    refcount cfg (kalloc cfg s).2 p = 1 ∧
      ∀ i, i ≠ cfg.PA2REF p → (kalloc cfg s).2.references i = s.references i := by
  have hp : s.freelist = p := h.1.1
  have hne : s.freelist ≠ 0 := by
    rw [hp]
    exact h.1.2.1
  rw [kalloc_nonempty cfg s hne, hp]
  unfold refcount
  simp only
  exact ⟨by rw [setRef_same]; decide, fun i hi => setRef_other _ _ _ _ hi⟩

theorem add_the_reference_tracked (cfg : Config) (pa : Nat) (s : KState)
    (h : 0 ≤ cfg.PA2REF pa ∧ cfg.PA2REF pa < cfg.MAXREFERENCES) :
    add_the_reference cfg pa s =
      { s with
          references := setRef s.references (cfg.PA2REF pa)
            (CInt.wrap (refcount cfg s pa + 1)) } := by
  unfold add_the_reference refcount
  simp only
  rw [if_neg (by omega)]

/-- C5, as stated, fails: in the two-frame configuration, `kinit`, `kalloc`
(returning frame 8192 with share count 1), `kfree` of that frame (its count is
`>= 1`) and `add_the_reference` on it lead to a state where frame 8192 is on
the free list `[8192, 4096]` and has share count `1`; one more `kfree` of it
(count `>= 1` again) links the frame to itself, so the chain of links visits
it twice. -/
theorem free_frame_allocated_after_add :
    ∃ s1 s2 s3 s5, kinit cfg2 boot0 = .ok s1 ∧ kalloc cfg2 s1 = (8192, s2) ∧
      refcount cfg2 s2 8192 = 1 ∧ kfree cfg2 8192 s2 = .ok s3 ∧
      FreeListIs cfg2 (add_the_reference cfg2 8192 s3) [8192, 4096] ∧
      refcount cfg2 (add_the_reference cfg2 8192 s3) 8192 = 1 ∧
      kfree cfg2 8192 (add_the_reference cfg2 8192 s3) = .ok s5 ∧
      s5.freelist = 8192 ∧ load64 s5.mem 8192 = 8192 := by
  obtain ⟨s1, hk1, hinv1, -⟩ := kinit_spec cfg2 cfg2_valid boot0 boot0_boot
  have hl : (poolFrames cfg2).reverse = [8192, 4096] := by
    rw [poolFrames_cfg2]
    rfl
  rw [hl] at hinv1
  have ha1 := (freeListIs_kalloc cfg2 s1 8192 [4096] hinv1.1).1
  have hinv2 : PoolInv cfg2 (kalloc cfg2 s1).2 [4096] :=
    poolInv_kalloc cfg2 cfg2_valid s1 [8192, 4096] hinv1
  have hc2 := (kalloc_refcount cfg2 s1 8192 [4096] hinv1.1).1
  have hm : managed cfg2 8192 := by decide
  have hk3 := kfree_release cfg2 8192 (kalloc cfg2 s1).2 hm (by omega) (by omega)
  have hinv3 := poolInv_kfree cfg2 cfg2_valid _ _ [4096] 8192 hinv2 (by omega) hk3
  have hfl3 := (hinv3.resolve_left (fun h => by omega)).2.1
  have hadd := add_the_reference_tracked cfg2 8192
    { (kalloc cfg2 s1).2 with
        references := setRef (kalloc cfg2 s1).2.references (cfg2.PA2REF 8192)
          (CInt.wrap (refcount cfg2 (kalloc cfg2 s1).2 8192 - 1))
        mem := store64 (memset (kalloc cfg2 s1).2.mem 8192 1 PGSIZE) 8192
          (kalloc cfg2 s1).2.freelist
        freelist := 8192 } (by decide)
  have hc4 : refcount cfg2 (add_the_reference cfg2 8192
      { (kalloc cfg2 s1).2 with
        references := setRef (kalloc cfg2 s1).2.references (cfg2.PA2REF 8192)
          (CInt.wrap (refcount cfg2 (kalloc cfg2 s1).2 8192 - 1))
        mem := store64 (memset (kalloc cfg2 s1).2.mem 8192 1 PGSIZE) 8192
          (kalloc cfg2 s1).2.freelist
        freelist := 8192 }) 8192 = 1 := by
    rw [hadd]
    simp only [refcount, setRef_same]
    unfold refcount at hc2
    rw [hc2]
    decide
  have hfl4 : FreeListIs cfg2 (add_the_reference cfg2 8192
      { (kalloc cfg2 s1).2 with
        references := setRef (kalloc cfg2 s1).2.references (cfg2.PA2REF 8192)
          (CInt.wrap (refcount cfg2 (kalloc cfg2 s1).2 8192 - 1))
        mem := store64 (memset (kalloc cfg2 s1).2.mem 8192 1 PGSIZE) 8192
          (kalloc cfg2 s1).2.freelist
        freelist := 8192 }) [8192, 4096] := by
    rw [hadd]
    exact hfl3
  have hk5 := kfree_release cfg2 8192 _ hm (le_of_eq hc4) (by omega)
  refine ⟨s1, (kalloc cfg2 s1).2, _, _, hk1, Prod.ext ha1 rfl, hc2, hk3, hfl4, hc4, hk5, rfl, ?_⟩
  simp only
  rw [load64_store64 _ _ _ (freelist_lt_pow cfg2 cfg2_valid _ _ hfl4)]
  exact hfl4.1.1

theorem kfree_effect (cfg : Config) (pa : Nat) (s : KState) (hm : managed cfg pa)
    (hc : 1 ≤ refcount cfg s pa) :
    ∃ t, kfree cfg pa s = .ok t ∧ t.pagetable = s.pagetable ∧
      t.pagefaultcount = s.pagefaultcount ∧
      t.references = setRef s.references (cfg.PA2REF pa) (CInt.wrap (refcount cfg s pa - 1)) ∧
      ∀ a, a < pa ∨ pa + PGSIZE ≤ a → t.mem a = s.mem a := by
  by_cases h2 : 2 ≤ refcount cfg s pa
  · exact ⟨_, kfree_keep cfg pa s hm h2, rfl, rfl, rfl, fun _ _ => rfl⟩
  · refine ⟨_, kfree_release cfg pa s hm (by omega) (by omega), rfl, rfl, rfl, ?_⟩
    intro a ha
    simp only
    rw [store64_outside _ _ _ _ (by simp only [PGSIZE] at ha; omega),
      memset_outside _ _ _ _ _ ha]

theorem refcount_add_the_reference (cfg : Config) (pa : Nat) (s : KState)
    (ht : 0 ≤ cfg.PA2REF pa ∧ cfg.PA2REF pa < cfg.MAXREFERENCES) :
    refcount cfg (add_the_reference cfg pa s) pa
      = (CInt.wrap (refcount cfg s pa + 1)).val := by
  rw [add_the_reference_tracked cfg pa s ht]
  simp only [refcount, setRef_same]

theorem freeInv_not_mem (cfg : Config) (s : KState) (l : List Nat) (pa : Nat)
    (h : FreeInv cfg s l) (hc : 1 ≤ refcount cfg s pa) : pa ∉ l := by
  intro hmem
  have := h.2 pa hmem
  omega

theorem freeInv_setRef (cfg : Config) (s s' : KState) (l : List Nat) (i : Int) (v : CInt)
    (h : FreeInv cfg s l) (hmem : s'.mem = s.mem) (hfl : s'.freelist = s.freelist)
    (hrefs : s'.references = setRef s.references i v)
    (hold : 1 ≤ (s.references i).val) : FreeInv cfg s' l := by
  obtain ⟨⟨hl, hnd, hm⟩, hfree⟩ := h
  refine ⟨⟨?_, hnd, hm⟩, ?_⟩
  · rw [hmem, hfl]
    exact hl
  · intro q hq
    have hq0 := hfree q hq
    unfold refcount at hq0 ⊢
    have hne : cfg.PA2REF q ≠ i := by
      rintro rfl
      omega
    rw [hrefs, setRef_other _ _ _ _ hne]
    exact hq0

theorem freeInv_kalloc (cfg : Config) (hv : cfg.Valid) (s : KState) (l : List Nat)
    (h : FreeInv cfg s l) : FreeInv cfg (kalloc cfg s).2 l.tail := by
  cases l with
  | nil =>
    have h0 : s.freelist = 0 := h.1.1
    rw [kalloc_empty cfg s h0]
    exact h
  | cons p l =>
    obtain ⟨hfl, hfree⟩ := h
    have hk := freeListIs_kalloc cfg s p l hfl
    have hkr := kalloc_refcount cfg s p l hfl
    refine ⟨hk.2, ?_⟩
    intro q hq
    have hqp : q ≠ p := by
      rintro rfl
      exact (List.nodup_cons.mp hfl.2.1).1 hq
    have hne : cfg.PA2REF q ≠ cfg.PA2REF p := fun e =>
      hqp (hv.ref_inj q p (hfl.2.2 q (List.mem_cons_of_mem p hq))
        (hfl.2.2 p (List.mem_cons_self p l)) e)
    unfold refcount
    rw [hkr.2 _ hne]
    exact hfree q (List.mem_cons_of_mem p hq)

theorem freeInv_kfree (cfg : Config) (hv : cfg.Valid) (s s' : KState) (l : List Nat)
    (pa : Nat) (h : FreeInv cfg s l) (hc : 1 ≤ refcount cfg s pa)
    (hk : kfree cfg pa s = .ok s') : ∃ l', FreeInv cfg s' l' := by
  have hm : managed cfg pa := by
    by_contra hn
    rw [kfree_panic cfg pa s hn] at hk
    cases hk
  have hnot := freeInv_not_mem cfg s l pa h hc
  by_cases h2 : 2 ≤ refcount cfg s pa
  · rw [kfree_keep cfg pa s hm h2] at hk
    injection hk with hk
    subst hk
    exact ⟨l, freeInv_setRef cfg s _ l (cfg.PA2REF pa) _ h rfl rfl rfl hc⟩
  · have h1 : refcount cfg s pa = 1 := by omega
    rw [kfree_release cfg pa s hm (by omega) (by omega)] at hk
    injection hk with hk
    subst hk
    obtain ⟨hfl, hfree⟩ := h
    refine ⟨pa :: l, freeListIs_push cfg hv s pa l _ hfl hm hnot, ?_⟩
    intro q hq
    unfold refcount
    simp only
    rcases List.mem_cons.mp hq with rfl | hq
    · unfold refcount at h1
      rw [setRef_same, h1]
      left
      decide
    · have hne : cfg.PA2REF q ≠ cfg.PA2REF pa := fun e =>
        (fun hqp : q = pa => hnot (hqp ▸ hq)) (hv.ref_inj q pa (hfl.2.2 q hq) hm e)
      rw [setRef_other _ _ _ _ hne]
      exact hfree q hq

theorem freeInv_add (cfg : Config) (s : KState) (l : List Nat) (pa : Nat)
    (h : FreeInv cfg s l) (hc : 1 ≤ refcount cfg s pa) :
    FreeInv cfg (add_the_reference cfg pa s) l := by
  unfold add_the_reference
  simp only
  split
  · exact h
  · exact freeInv_setRef cfg s _ l (cfg.PA2REF pa) _ h rfl rfl rfl hc

theorem freeInv_dec (cfg : Config) (s : KState) (l : List Nat) (pa : Nat)
    (h : FreeInv cfg s l) : FreeInv cfg (decreasereferences_and_check cfg pa s).2 l := by
  unfold decreasereferences_and_check
  simp only
  split
  · exact h
  · split
    · exact h
    · exact freeInv_setRef cfg s _ l (cfg.PA2REF pa) _ h rfl rfl rfl (by omega)

theorem reachableFromCalls_freeInv (cfg : Config) (hv : cfg.Valid) (s : KState)
    (h : ReachableFromCalls cfg s) : ∃ l, FreeInv cfg s l := by
  induction h with
  | init s0 s hb h =>
    obtain ⟨t, ht, hinv, -⟩ := kinit_spec cfg hv s0 hb
    rw [h] at ht
    injection ht with ht
    subst ht
    exact ⟨_, hinv.1, hinv.2.1⟩
  | kalloc s _ ih =>
    obtain ⟨l, hl⟩ := ih
    exact ⟨_, freeInv_kalloc cfg hv s l hl⟩
  | kfree s s' pa _ hc h ih =>
    obtain ⟨l, hl⟩ := ih
    exact freeInv_kfree cfg hv s s' l pa hl hc h
  | add s pa _ hc ih =>
    obtain ⟨l, hl⟩ := ih
    exact ⟨_, freeInv_add cfg s l pa hl hc⟩
  | dec s pa _ ih =>
    obtain ⟨l, hl⟩ := ih
    exact ⟨_, freeInv_dec cfg s l pa hl⟩

/-- C5 (amended): in every state reachable from initialization by `kalloc`,
`kfree` of a frame whose share count is at least `1`, `add_the_reference` on
an allocated frame (share count at least `1`) and
`decreasereferences_and_check`, the links from `kmem.freelist` spell out a
list of managed frames without duplicates, and no frame on it has a share
count of `1` or more. -/
theorem reachable_exclusive (cfg : Config) (hv : cfg.Valid) (s : KState)
    (h : ReachableFromCalls cfg s) :
    ∃ l, isFreeList s.mem s.freelist l ∧ l.Nodup ∧ (∀ p ∈ l, managed cfg p) ∧
      ∀ p ∈ l, ¬ (1 ≤ refcount cfg s p) := by
  obtain ⟨l, hl⟩ := reachableFromCalls_freeInv cfg hv s h
  refine ⟨l, hl.1.1, hl.1.2.1, hl.1.2.2, ?_⟩
  intro p hp hc
  have := hl.2 p hp
  omega

/-- Witness for C5 (amended): in the four-frame configuration, `kinit`,
`kalloc` (frame 16384), `add_the_reference` on it (count 2), `kalloc` (frame
12288) and `kfree` of 12288 lead to a state whose free list is
`[12288, 8192, 4096]` while frame 16384 is allocated with count `2`: the list
has no duplicate, none of its frames has a count of `1` or more, and the
allocated frame is not on it. -/
theorem reachable_exclusive_witness :
    ∃ s1 s2 s4 s5, kinit cfg4 boot0 = .ok s1 ∧ kalloc cfg4 s1 = (16384, s2) ∧
      1 ≤ refcount cfg4 s2 16384 ∧
      kalloc cfg4 (add_the_reference cfg4 16384 s2) = (12288, s4) ∧
      1 ≤ refcount cfg4 s4 12288 ∧ kfree cfg4 12288 s4 = .ok s5 ∧
      cfg4.Valid ∧ ReachableFromCalls cfg4 s5 ∧
      isFreeList s5.mem s5.freelist [12288, 8192, 4096] ∧ [12288, 8192, 4096].Nodup ∧
      (∀ p ∈ [12288, 8192, 4096], managed cfg4 p) ∧
      (∀ p ∈ [12288, 8192, 4096], ¬ (1 ≤ refcount cfg4 s5 p)) ∧
      refcount cfg4 s5 16384 = 2 ∧ 16384 ∉ [12288, 8192, 4096] := by
  obtain ⟨s1, hk1, hinv1, -⟩ := kinit_spec cfg4 cfg4_valid boot0 boot0_boot
  have hl : (poolFrames cfg4).reverse = [16384, 12288, 8192, 4096] := by
    rw [poolFrames_cfg4]
    rfl
  rw [hl] at hinv1
  have hr1 : ReachableFromCalls cfg4 s1 := ReachableFromCalls.init boot0 s1 boot0_boot hk1
  -- first allocation: frame 16384
  have ha2 := (freeListIs_kalloc cfg4 s1 16384 [12288, 8192, 4096] hinv1.1).1
  have hinv2 : PoolInv cfg4 (kalloc cfg4 s1).2 [12288, 8192, 4096] :=
    poolInv_kalloc cfg4 cfg4_valid s1 [16384, 12288, 8192, 4096] hinv1
  have hc2 := (kalloc_refcount cfg4 s1 16384 [12288, 8192, 4096] hinv1.1).1
  have hr2 : ReachableFromCalls cfg4 (kalloc cfg4 s1).2 := ReachableFromCalls.kalloc s1 hr1
  -- a second reference to it
  have ht : 0 ≤ cfg4.PA2REF 16384 ∧ cfg4.PA2REF 16384 < cfg4.MAXREFERENCES := by decide
  have hc3 : refcount cfg4 (add_the_reference cfg4 16384 (kalloc cfg4 s1).2) 16384 = 2 := by
    rw [refcount_add_the_reference cfg4 16384 _ ht, hc2]
    decide
  have hinv3 : PoolInv cfg4 (add_the_reference cfg4 16384 (kalloc cfg4 s1).2)
      [12288, 8192, 4096] :=
    poolInv_add cfg4 _ _ 16384 hinv2 (by rw [hc2]) (by rw [hc2]; decide)
  have hr3 : ReachableFromCalls cfg4 (add_the_reference cfg4 16384 (kalloc cfg4 s1).2) :=
    ReachableFromCalls.add _ 16384 hr2 (by rw [hc2])
  -- second allocation: frame 12288
  have ha4 := (freeListIs_kalloc cfg4 _ 12288 [8192, 4096] hinv3.1).1
  have hkr4 := kalloc_refcount cfg4 _ 12288 [8192, 4096] hinv3.1
  have hinv4 : PoolInv cfg4
      (kalloc cfg4 (add_the_reference cfg4 16384 (kalloc cfg4 s1).2)).2 [8192, 4096] :=
    poolInv_kalloc cfg4 cfg4_valid _ [12288, 8192, 4096] hinv3
  have hc4 : refcount cfg4
      (kalloc cfg4 (add_the_reference cfg4 16384 (kalloc cfg4 s1).2)).2 16384 = 2 := by
    unfold refcount
    rw [hkr4.2 _ (by decide)]
    exact hc3
  have hr4 := ReachableFromCalls.kalloc _ hr3
  -- frame 12288 is freed again
  have hm : managed cfg4 12288 := by decide
  obtain ⟨s5, hk5, -, -, hrefs5, -⟩ := kfree_effect cfg4 12288 _ hm (by rw [hkr4.1])
  have hinv5 : PoolInv cfg4 s5 [12288, 8192, 4096] := by
    rcases poolInv_kfree cfg4 cfg4_valid _ s5 [8192, 4096] 12288 hinv4 (by rw [hkr4.1]) hk5
      with h | h
    · rw [hkr4.1] at h
      exact absurd h.1 (by decide)
    · exact h.2
  have hc5 : refcount cfg4 s5 16384 = 2 := by
    unfold refcount
    rw [hrefs5, setRef_other _ _ _ _ (by decide)]
    exact hc4
  have hr5 : ReachableFromCalls cfg4 s5 :=
    ReachableFromCalls.kfree _ s5 12288 hr4 (by rw [hkr4.1]) hk5
  obtain ⟨l, w1, w2, w3, w4⟩ := reachable_exclusive cfg4 cfg4_valid s5 hr5
  have hl5 : l = [12288, 8192, 4096] :=
    isFreeList_unique s5.mem l [12288, 8192, 4096] s5.freelist w1 hinv5.1.1
  subst hl5
  exact ⟨s1, (kalloc cfg4 s1).2, _, s5, hk1, Prod.ext ha2 rfl, by rw [hc2],
    Prod.ext ha4 rfl, by rw [hkr4.1], hk5, cfg4_valid, hr5, w1, w2, w3, w4, hc5, by decide⟩

/-! ## C6: `kfree` on an allocated frame -/

/-- C6: `kfree` on a managed (page-aligned, in-range) frame with share count
`c >= 1` returns normally and lowers the count to `c - 1`, leaving every other
entry of the reference table as it was. If `c - 1` is still positive the free
list and the memory are unchanged. If `c - 1` is zero, every byte of the frame
is overwritten with `1` (`memset`), then the frame is pushed: its first 8
bytes receive the link to the previous head, `kmem.freelist` points at it, the
bytes at offsets `8 .. 4095` still hold `1`, memory outside the frame is
untouched, and a well-formed free list `l` becomes `pa :: l`. -/
theorem kfree_spec (cfg : Config) (hv : cfg.Valid) (pa : Nat) (s : KState)
    (hm : managed cfg pa) (hc : 1 ≤ refcount cfg s pa) :
    ∃ s', kfree cfg pa s = .ok s' ∧
      refcount cfg s' pa = refcount cfg s pa - 1 ∧
      (∀ i, i ≠ cfg.PA2REF pa → s'.references i = s.references i) ∧
      (1 < refcount cfg s pa → s'.freelist = s.freelist ∧ s'.mem = s.mem) ∧
      (refcount cfg s pa = 1 →
        s'.mem = store64 (memset s.mem pa 1 PGSIZE) pa s.freelist ∧
        (∀ i, i < PGSIZE → memset s.mem pa 1 PGSIZE (pa + i) = 1) ∧
        (∀ i, 8 ≤ i → i < PGSIZE → s'.mem (pa + i) = 1) ∧
        (∀ a, a < pa ∨ pa + PGSIZE ≤ a → s'.mem a = s.mem a) ∧
        s'.freelist = pa ∧
        ∀ l, FreeListIs cfg s l → pa ∉ l → FreeListIs cfg s' (pa :: l)) := by
  have hhi := (s.references (cfg.PA2REF pa)).hi
  have hwrap : (CInt.wrap (refcount cfg s pa - 1)).val = refcount cfg s pa - 1 := by
    unfold refcount at hc ⊢
    exact CInt.wrap_val _ (by omega) (by omega)
  by_cases h2 : 2 ≤ refcount cfg s pa
  · refine ⟨_, kfree_keep cfg pa s hm h2, ?_, ?_, ?_, ?_⟩
    · simp only [refcount, setRef_same]
      exact hwrap
    · intro i hi
      exact setRef_other _ _ _ _ hi
    · intro _
      exact ⟨rfl, rfl⟩
    · intro h1
      omega
  · have h1 : refcount cfg s pa = 1 := by omega
    refine ⟨_, kfree_release cfg pa s hm (by omega) (by omega), ?_, ?_, ?_, ?_⟩
    · simp only [refcount, setRef_same]
      exact hwrap
    · intro i hi
      exact setRef_other _ _ _ _ hi
    · intro h
      omega
    · intro _
      refine ⟨rfl, ?_, ?_, ?_, rfl, ?_⟩
      · intro i hi
        rw [memset_inside _ _ _ _ _ (by omega)]
      · intro i h8 hi
        simp only
        rw [store64_outside _ _ _ _ (by omega), memset_inside _ _ _ _ _ (by omega)]
      · intro a ha
        simp only
        rw [store64_outside _ _ _ _ (by simp only [PGSIZE] at ha; omega),
          memset_outside _ _ _ _ _ ha]
      · intro l hl hnot
        exact freeListIs_push cfg hv s pa l _ hl hm hnot

/-- Witness for C6: `kfree` of frame 8192 in the sample state where its share
count is `1`. -/
theorem kfree_spec_witness :
    cfg2.Valid ∧ managed cfg2 8192 ∧ 1 ≤ refcount cfg2 (cowState 1) 8192 ∧
      ∃ s', kfree cfg2 8192 (cowState 1) = .ok s' ∧
        refcount cfg2 s' 8192 = refcount cfg2 (cowState 1) 8192 - 1 ∧
        (∀ i, i ≠ cfg2.PA2REF 8192 → s'.references i = (cowState 1).references i) ∧
        (1 < refcount cfg2 (cowState 1) 8192 →
          s'.freelist = (cowState 1).freelist ∧ s'.mem = (cowState 1).mem) ∧
        (refcount cfg2 (cowState 1) 8192 = 1 →
          s'.mem = store64 (memset (cowState 1).mem 8192 1 PGSIZE) 8192
            (cowState 1).freelist ∧
          (∀ i, i < PGSIZE → memset (cowState 1).mem 8192 1 PGSIZE (8192 + i) = 1) ∧
          (∀ i, 8 ≤ i → i < PGSIZE → s'.mem (8192 + i) = 1) ∧
          (∀ a, a < 8192 ∨ 8192 + PGSIZE ≤ a → s'.mem a = (cowState 1).mem a) ∧
          s'.freelist = 8192 ∧
          ∀ l, FreeListIs cfg2 (cowState 1) l → 8192 ∉ l →
            FreeListIs cfg2 s' (8192 :: l)) :=
  ⟨cfg2_valid, by decide, by decide,
    kfree_spec cfg2 cfg2_valid 8192 (cowState 1) (by decide) (by decide)⟩

/-! ## C7: `kalloc` -/

theorem cowState_freeList (n : Int) : FreeListIs cfg2 (cowState n) [4096] := by
  refine ⟨⟨rfl, by decide, ?_⟩, by simp, ?_⟩
  · show load64 (cowState n).mem 4096 = 0
    simp [load64, loadLE, cowState]
  · intro p hp
    rw [List.mem_singleton.mp hp]
    decide

/-- C7: on a well-formed free list `p :: l`, `kalloc` returns the head `p`
(a non-null frame that was on the list), the free list afterwards is `l`,
every byte of the returned frame holds `69`, its share count is `1` and every
other entry of the reference table is unchanged; on an empty free list it
returns `0` and the whole state is unchanged. -/
theorem kalloc_spec (cfg : Config) (s : KState) :
    (∀ p l, FreeListIs cfg s (p :: l) →
      ∃ s', kalloc cfg s = (p, s') ∧ p ≠ 0 ∧ p ∈ p :: l ∧ FreeListIs cfg s' l ∧
        (∀ i, i < PGSIZE → s'.mem (p + i) = 69) ∧ refcount cfg s' p = 1 ∧
        (∀ i, i ≠ cfg.PA2REF p → s'.references i = s.references i)) ∧
      (s.freelist = 0 → kalloc cfg s = (0, s)) := by
  refine ⟨?_, kalloc_empty cfg s⟩
  intro p l h
  have h1 := freeListIs_kalloc cfg s p l h
  have h2 := kalloc_refcount cfg s p l h
  have hp : s.freelist = p := h.1.1
  have hne : s.freelist ≠ 0 := by
    rw [hp]
    exact h.1.2.1
  refine ⟨(kalloc cfg s).2, Prod.ext h1.1 rfl, h.1.2.1, List.mem_cons_self p l, h1.2, ?_,
    h2.1, h2.2⟩
  intro i hi
  rw [kalloc_nonempty cfg s hne, hp]
  simp only
  rw [memset_inside _ _ _ _ _ (by omega)]

/-- Witness for C7: `kalloc` in the sample state whose free list is `[4096]`,
and in the boot state whose free list is empty. -/
theorem kalloc_spec_witness :
    FreeListIs cfg2 (cowState 1) [4096] ∧
      (∃ s', kalloc cfg2 (cowState 1) = (4096, s') ∧ 4096 ≠ 0 ∧ 4096 ∈ [4096] ∧
        FreeListIs cfg2 s' [] ∧ (∀ i, i < PGSIZE → s'.mem (4096 + i) = 69) ∧
        refcount cfg2 s' 4096 = 1 ∧
        (∀ i, i ≠ cfg2.PA2REF 4096 → s'.references i = (cowState 1).references i)) ∧
      boot0.freelist = 0 ∧ kalloc cfg2 boot0 = (0, boot0) :=
  ⟨cowState_freeList 1,
    (kalloc_spec cfg2 (cowState 1)).1 4096 [] (cowState_freeList 1),
    rfl, (kalloc_spec cfg2 boot0).2 rfl⟩

/-! ## C8: initialization and exhaustion -/

theorem kallocN_spec (cfg : Config) (l1 : List Nat) :
    ∀ (s : KState) (l2 : List Nat), FreeListIs cfg s (l1 ++ l2) →
      (kallocN cfg l1.length s).1 = l1 ∧ FreeListIs cfg (kallocN cfg l1.length s).2 l2 := by
  induction l1 with
  | nil =>
    intro s l2 h
    exact ⟨rfl, h⟩
  | cons p l1 ih =>
    intro s l2 h
    have hk := freeListIs_kalloc cfg s p (l1 ++ l2) h
    have := ih (kalloc cfg s).2 l2 hk.2
    simp only [List.length_cons, kallocN]
    exact ⟨by rw [hk.1, this.1], this.2⟩

/-- C8: for a range `[pa_start, pa_end)` inside the managed bounds
(`end <= pa_start`, `pa_end <= PHYSTOP`), `freerange` on a boot state (empty
free list, zero-initialised table) returns normally with a free list `l` that
holds exactly the page-aligned `p` with `PGROUNDUP(pa_start) <= p` and
`p + PGSIZE <= pa_end`; `l` has `N = (pa_end - PGROUNDUP(pa_start)) / PGSIZE`
frames; the next `N` calls of `kalloc` return the frames of `l`, all non-null
and pairwise distinct, and the call after them returns `0`. -/
theorem freerange_exhaustion (cfg : Config) (hv : cfg.Valid) (pa_start pa_end : Nat)
    (s0 : KState) (hb : Boot s0) (hs : cfg.endAddr ≤ pa_start)
    (he : pa_end ≤ cfg.PHYSTOP) :
    ∃ s l, freerange cfg pa_start pa_end s0 = .ok s ∧ FreeListIs cfg s l ∧
      (∀ p, p ∈ l ↔ p % PGSIZE = 0 ∧ PGROUNDUP pa_start ≤ p ∧ p + PGSIZE ≤ pa_end) ∧
      l.length = (pa_end - PGROUNDUP pa_start) / PGSIZE ∧
      (kallocN cfg ((pa_end - PGROUNDUP pa_start) / PGSIZE) s).1 = l ∧
      (∀ p ∈ (kallocN cfg ((pa_end - PGROUNDUP pa_start) / PGSIZE) s).1, p ≠ 0) ∧
      (kallocN cfg ((pa_end - PGROUNDUP pa_start) / PGSIZE) s).1.Nodup ∧
      (kalloc cfg (kallocN cfg ((pa_end - PGROUNDUP pa_start) / PGSIZE) s).2).1 = 0 := by
  obtain ⟨s, h1, h2, -⟩ := freerange_spec cfg hv pa_start pa_end s0 hb hs he
  have hlen : (framesFrom (PGROUNDUP pa_start) (frameCount pa_start pa_end)).reverse.length
      = (pa_end - PGROUNDUP pa_start) / PGSIZE := by
    rw [List.length_reverse, length_framesFrom]
    rfl
  have hk := kallocN_spec cfg _ s [] (by simpa using h2)
  rw [hlen] at hk
  refine ⟨s, _, h1, h2, ?_, hlen, hk.1, ?_, ?_, ?_⟩
  · intro p
    rw [List.mem_reverse]
    exact mem_framesFrom_iff _ _ _ (PGROUNDUP_aligned pa_start)
  · intro p hp
    rw [hk.1] at hp
    exact managed_ne_zero cfg hv p (h2.2.2 p hp)
  · rw [hk.1]
    exact h2.2.1
  · have h0 : (kallocN cfg ((pa_end - PGROUNDUP pa_start) / PGSIZE) s).2.freelist = 0 :=
      hk.2.1
    rw [kalloc_empty cfg _ h0]

/-- Witness for C8: `freerange(end, PHYSTOP)` in the two-frame configuration. -/
theorem freerange_exhaustion_witness :
    cfg2.Valid ∧ Boot boot0 ∧ cfg2.endAddr ≤ 4000 ∧ 12288 ≤ cfg2.PHYSTOP ∧
      ∃ s l, freerange cfg2 4000 12288 boot0 = .ok s ∧ FreeListIs cfg2 s l ∧
        (∀ p, p ∈ l ↔ p % PGSIZE = 0 ∧ PGROUNDUP 4000 ≤ p ∧ p + PGSIZE ≤ 12288) ∧
        l.length = (12288 - PGROUNDUP 4000) / PGSIZE ∧
        (kallocN cfg2 ((12288 - PGROUNDUP 4000) / PGSIZE) s).1 = l ∧
        (∀ p ∈ (kallocN cfg2 ((12288 - PGROUNDUP 4000) / PGSIZE) s).1, p ≠ 0) ∧
        (kallocN cfg2 ((12288 - PGROUNDUP 4000) / PGSIZE) s).1.Nodup ∧
        (kalloc cfg2 (kallocN cfg2 ((12288 - PGROUNDUP 4000) / PGSIZE) s).2).1 = 0 :=
  ⟨cfg2_valid, boot0_boot, by decide, by decide,
    freerange_exhaustion cfg2 cfg2_valid 4000 12288 boot0 boot0_boot (by decide) (by decide)⟩

/-! ## C9: fatal misuse of `kfree` -/

/-- C9: for an address that is not a multiple of the page size, or is below
`end`, or is at or above `PHYSTOP`, `kfree` panics and the state at the abort
is the state before the call (free list, share counts and memory untouched);
for a page-aligned address inside `[end, PHYSTOP)` it returns normally. -/
theorem kfree_fatal_misuse (cfg : Config) (pa : Nat) (s : KState) :
    ((pa % PGSIZE ≠ 0 ∨ pa < cfg.endAddr ∨ cfg.PHYSTOP ≤ pa) →
        kfree cfg pa s = .panic "kfree" s) ∧
      ((pa % PGSIZE = 0 ∧ cfg.endAddr ≤ pa ∧ pa < cfg.PHYSTOP) →
        ∃ s', kfree cfg pa s = .ok s') := by
  constructor
  · intro h
    apply kfree_panic
    unfold managed
    omega
  · intro h
    unfold kfree
    simp only
    rw [if_neg (by omega)]
    split
    · exact ⟨_, rfl⟩
    · exact ⟨_, rfl⟩

/-- Witness for C9: a misaligned address, an address below `end`, an address
at `PHYSTOP`, and the managed frame 8192, in the sample state. -/
theorem kfree_fatal_misuse_witness :
    (4097 % PGSIZE ≠ 0 ∨ 4097 < cfg2.endAddr ∨ cfg2.PHYSTOP ≤ 4097) ∧
      kfree cfg2 4097 (cowState 1) = .panic "kfree" (cowState 1) ∧
      kfree cfg2 0 (cowState 1) = .panic "kfree" (cowState 1) ∧
      kfree cfg2 12288 (cowState 1) = .panic "kfree" (cowState 1) ∧
      (8192 % PGSIZE = 0 ∧ cfg2.endAddr ≤ 8192 ∧ 8192 < cfg2.PHYSTOP) ∧
      ∃ s', kfree cfg2 8192 (cowState 1) = .ok s' :=
  ⟨by decide,
    (kfree_fatal_misuse cfg2 4097 (cowState 1)).1 (by decide),
    (kfree_fatal_misuse cfg2 0 (cowState 1)).1 (by decide),
    (kfree_fatal_misuse cfg2 12288 (cowState 1)).1 (by decide),
    by decide,
    (kfree_fatal_misuse cfg2 8192 (cowState 1)).2 (by decide)⟩

/-! ## C10: `decreasereferences_and_check` -/

/-- C10: on a tracked frame (index inside `[0, MAXREFERENCES)`) with share
count `c`, `decreasereferences_and_check` returns `0` (no copy needed) and
leaves the whole state unchanged when `c <= 1`; when `c > 1` it returns `1`
(copy needed), the count becomes `c - 1`, and every other count, the free
list, the memory, the page table and the fault counter are unchanged. The
result is `0` or `1` in every case. -/
theorem decreasereferences_and_check_spec (cfg : Config) (pa : Nat) (s : KState)
    (ht : 0 ≤ cfg.PA2REF pa ∧ cfg.PA2REF pa < cfg.MAXREFERENCES) :
    (refcount cfg s pa ≤ 1 → decreasereferences_and_check cfg pa s = (0, s)) ∧
      (1 < refcount cfg s pa →
        ∃ s', decreasereferences_and_check cfg pa s = (1, s') ∧
          refcount cfg s' pa = refcount cfg s pa - 1 ∧
          (∀ i, i ≠ cfg.PA2REF pa → s'.references i = s.references i) ∧
          s'.freelist = s.freelist ∧ s'.mem = s.mem ∧ s'.pagetable = s.pagetable ∧
          s'.pagefaultcount = s.pagefaultcount) ∧
      ((decreasereferences_and_check cfg pa s).1 = 0 ∨
        (decreasereferences_and_check cfg pa s).1 = 1) := by
  have hhi := (s.references (cfg.PA2REF pa)).hi
  unfold refcount
  refine ⟨?_, ?_, ?_⟩
  · intro h
    unfold decreasereferences_and_check
    simp only
    rw [if_neg (by omega), if_pos h]
  · intro h
    refine ⟨{ s with
        references := setRef s.references (cfg.PA2REF pa)
          (CInt.wrap ((s.references (cfg.PA2REF pa)).val - 1)) },
      ?_, ?_, ?_, rfl, rfl, rfl, rfl⟩
    · unfold decreasereferences_and_check
      simp only
      rw [if_neg (by omega), if_neg (by omega)]
    · simp only [setRef_same]
      exact CInt.wrap_val _ (by omega) (by omega)
    · intro i hi
      exact setRef_other _ _ _ _ hi
  · unfold decreasereferences_and_check
    simp only
    rw [if_neg (by omega)]
    split
    · left
      rfl
    · right
      rfl

/-- Witness for C10: frame 8192 with share count `1` (no copy) and with share
count `3` (copy needed) in the two-frame configuration. -/
theorem decreasereferences_and_check_spec_witness :
    (0 ≤ cfg2.PA2REF 8192 ∧ cfg2.PA2REF 8192 < cfg2.MAXREFERENCES) ∧
      refcount cfg2 (cowState 1) 8192 ≤ 1 ∧
      decreasereferences_and_check cfg2 8192 (cowState 1) = (0, cowState 1) ∧
      1 < refcount cfg2 (cowState 3) 8192 ∧
      (∃ s', decreasereferences_and_check cfg2 8192 (cowState 3) = (1, s') ∧
        refcount cfg2 s' 8192 = refcount cfg2 (cowState 3) 8192 - 1 ∧
        (∀ i, i ≠ cfg2.PA2REF 8192 → s'.references i = (cowState 3).references i) ∧
        s'.freelist = (cowState 3).freelist ∧ s'.mem = (cowState 3).mem ∧
        s'.pagetable = (cowState 3).pagetable ∧
        s'.pagefaultcount = (cowState 3).pagefaultcount) ∧
      ((decreasereferences_and_check cfg2 8192 (cowState 3)).1 = 0 ∨
        (decreasereferences_and_check cfg2 8192 (cowState 3)).1 = 1) :=
  ⟨by decide, by decide,
    (decreasereferences_and_check_spec cfg2 8192 (cowState 1) (by decide)).1 (by decide),
    by decide,
    (decreasereferences_and_check_spec cfg2 8192 (cowState 3) (by decide)).2.1 (by decide),
    (decreasereferences_and_check_spec cfg2 8192 (cowState 3) (by decide)).2.2⟩

/-! ## Page-table entry arithmetic -/

theorem PTE_FLAGS_eq_mod (pte : Nat) : PTE_FLAGS pte = pte % 1024 :=
  Nat.and_pow_two_sub_one_eq_mod pte 10

theorem PTE2PA_eq (pte : Nat) : PTE2PA pte = pte / 1024 * 4096 := by
  simp [PTE2PA, Nat.shiftLeft_eq, Nat.shiftRight_eq_div_pow]

theorem PA2PTE_eq (pa : Nat) : PA2PTE pa = pa / 4096 * 1024 := by
  simp [PA2PTE, Nat.shiftLeft_eq, Nat.shiftRight_eq_div_pow]

theorem testBit_andNot (x m i : Nat) :
    (andNot x m).testBit i = (x.testBit i && !m.testBit i) := by
  simp only [andNot, Nat.testBit_xor, Nat.testBit_and]
  cases x.testBit i <;> cases m.testBit i <;> rfl

theorem andNot_lt (x m : Nat) (h : x < 1024) : andNot x m < 1024 := by
  have h1 : x < 2 ^ 10 := h
  have h2 : x &&& m < 2 ^ 10 := lt_of_le_of_lt Nat.and_le_left h1
  exact Nat.xor_lt_two_pow h1 h2

theorem testBit_of_and_ne_zero (x k : Nat) (h : x &&& 2 ^ k ≠ 0) : x.testBit k = true := by
  by_contra hb
  apply h
  apply Nat.eq_of_testBit_eq
  intro i
  simp only [Nat.testBit_and, Nat.testBit_two_pow, Nat.zero_testBit]
  by_cases hik : k = i
  · subst hik
    simp [hb]
  · simp [hik]

theorem testBit_of_and_eq_zero (x k : Nat) (h : x &&& 2 ^ k = 0) : x.testBit k = false := by
  have := congrArg (fun y => y.testBit k) h
  simpa [Nat.testBit_and, Nat.testBit_two_pow] using this

theorem and_ne_zero_of_testBit (x k : Nat) (h : x.testBit k = true) : x &&& 2 ^ k ≠ 0 := by
  intro h0
  have := testBit_of_and_eq_zero x k h0
  rw [h] at this
  cases this

/-- The entry installed by `mappages` for an aligned frame. -/
theorem newPte_spec (g e cow : Nat) (hg : g % 4096 = 0) (hev : e &&& PTE_V ≠ 0)
    (hcv : cow &&& PTE_V = 0) (hcw : cow &&& PTE_W = 0) (hc : cow < 1024) :
    PTE2PA (PA2PTE g ||| andNot (PTE_FLAGS e ||| PTE_W) cow ||| PTE_V) = g ∧
    PTE_FLAGS (PA2PTE g ||| andNot (PTE_FLAGS e ||| PTE_W) cow ||| PTE_V)
      = andNot (PTE_FLAGS e ||| PTE_W) cow ∧
    (PA2PTE g ||| andNot (PTE_FLAGS e ||| PTE_W) cow ||| PTE_V) &&& PTE_W ≠ 0 ∧
    (PA2PTE g ||| andNot (PTE_FLAGS e ||| PTE_W) cow ||| PTE_V) &&& cow = 0 := by
  have hf : andNot (PTE_FLAGS e ||| PTE_W) cow < 1024 := by
    apply andNot_lt
    have h1 : PTE_FLAGS e < 2 ^ 10 := by
      rw [PTE_FLAGS_eq_mod]
      exact Nat.mod_lt _ (by norm_num)
    exact Nat.or_lt_two_pow h1 (by decide)
  have e0 : e.testBit 0 = true := testBit_of_and_ne_zero e 0 hev
  have c0 : cow.testBit 0 = false := testBit_of_and_eq_zero cow 0 hcv
  have c2 : cow.testBit 2 = false := testBit_of_and_eq_zero cow 2 hcw
  have hfv : andNot (PTE_FLAGS e ||| PTE_W) cow ||| PTE_V = andNot (PTE_FLAGS e ||| PTE_W) cow := by
    apply Nat.eq_of_testBit_eq
    intro i
    rw [Nat.testBit_or]
    by_cases hi : i = 0
    · subst hi
      rw [testBit_andNot, Nat.testBit_or, PTE_FLAGS, Nat.testBit_and, e0, c0]
      rfl
    · have : PTE_V.testBit i = false := by
        have := @Nat.testBit_two_pow 0 i
        simp only [pow_zero] at this
        rw [show PTE_V = 1 from rfl, this]
        simp [Ne.symm hi]
      rw [this, Bool.or_false]
  have hnew : PA2PTE g ||| andNot (PTE_FLAGS e ||| PTE_W) cow ||| PTE_V
      = 2 ^ 10 * (g / 4096) + andNot (PTE_FLAGS e ||| PTE_W) cow := by
    rw [Nat.or_assoc, hfv, Nat.mul_add_lt_is_or hf, PA2PTE_eq, Nat.mul_comm]
  have w2 : (andNot (PTE_FLAGS e ||| PTE_W) cow).testBit 2 = true := by
    rw [testBit_andNot, Nat.testBit_or, c2]
    have : PTE_W.testBit 2 = true := by decide
    rw [this]
    simp
  refine ⟨?_, ?_, ?_, ?_⟩
  · rw [hnew, PTE2PA_eq]
    omega
  · rw [hnew, PTE_FLAGS_eq_mod]
    omega
  · apply and_ne_zero_of_testBit _ 2
    rw [Nat.or_assoc, hfv, Nat.testBit_or, w2, Bool.or_true]
  · apply Nat.eq_of_testBit_eq
    intro i
    rw [Nat.or_assoc, hfv, Nat.testBit_and, Nat.testBit_or, testBit_andNot, Nat.zero_testBit]
    by_cases hi : i < 10
    · have : (PA2PTE g).testBit i = false := by
        rw [PA2PTE, Nat.testBit_shiftLeft]
        simp [hi]
      rw [this]
      cases (PTE_FLAGS e ||| PTE_W).testBit i <;> cases cow.testBit i <;> rfl
    · have : cow.testBit i = false := by
        apply Nat.testBit_lt_two_pow
        calc cow < 2 ^ 10 := hc
          _ ≤ 2 ^ i := Nat.pow_le_pow_right (by norm_num) (by omega)
      rw [this, Bool.and_false]

/-! ## The fault path, step by step -/

theorem walk_some (s : KState) (va e : Nat) (h : s.pagetable (va / PGSIZE) = some e) :
    walk s va = some (va / PGSIZE) := by
  unfold walk
  rw [h]

theorem readPte_some (s : KState) (k e : Nat) (h : s.pagetable k = some e) :
    readPte s k = e := by
  unfold readPte
  rw [h]
  rfl

theorem handle_page_fault_ok (cfg : Config) (va : Nat) (s : KState)
    (h : (handle_page_fault cfg va s).1 = 0) :
    ∃ e, s.pagetable (va / PGSIZE) = some e ∧ e &&& PTE_V ≠ 0 ∧ e &&& PTE_U ≠ 0 ∧
      e &&& cfg.PTE_COW ≠ 0 ∧ 0 < va ∧ va < cfg.MAXVA ∧
      handle_page_fault cfg va s = (0, { s with pagefaultcount := s.pagefaultcount + 1 }) := by
  have hneg : ((-1 : Int) = 0) → False := by decide
  unfold handle_page_fault at h ⊢
  by_cases h1 : va ≥ cfg.MAXVA ∨ va ≤ 0
  · rw [if_pos h1] at h
    exact (hneg h).elim
  · rw [if_neg h1] at h ⊢
    cases hpt : s.pagetable (va / PGSIZE) with
    | none =>
      have hw : walk s va = none := by
        unfold walk
        rw [hpt]
      rw [hw] at h
      exact (hneg h).elim
    | some e =>
      have hw := walk_some s va e hpt
      have hr := readPte_some s (va / PGSIZE) e hpt
      rw [hw] at h ⊢
      simp only [hr] at h ⊢
      by_cases h2 : e &&& PTE_V = 0 ∨ e &&& PTE_U = 0 ∨ e &&& cfg.PTE_COW = 0
      · rw [if_pos h2] at h
        exact (hneg h).elim
      · rw [if_neg h2]
        refine ⟨e, rfl, ?_, ?_, ?_, ?_, ?_, rfl⟩
        · exact fun h0 => h2 (Or.inl h0)
        · exact fun h0 => h2 (Or.inr (Or.inl h0))
        · exact fun h0 => h2 (Or.inr (Or.inr h0))
        · omega
        · omega

theorem PGROUNDDOWN_page (va : Nat) :
    PGROUNDDOWN va % PGSIZE = 0 ∧ PGROUNDDOWN va / PGSIZE = va / PGSIZE := by
  simp only [PGROUNDDOWN, PGSIZE]
  omega

theorem uvmunmap_ok (cfg : Config) (va e : Nat) (s t : KState) (ha : va % PGSIZE = 0)
    (hpt : s.pagetable (va / PGSIZE) = some e) (hV : e &&& PTE_V ≠ 0)
    (hk : kfree cfg (PTE2PA e) s = .ok t) :
    uvmunmap cfg va s = .ok { t with pagetable := setPte t.pagetable (va / PGSIZE) 0 } := by
  unfold uvmunmap
  rw [if_neg (by omega), walk_some s va e hpt]
  simp only [readPte_some s (va / PGSIZE) e hpt]
  rw [if_neg hV, hk]

theorem mappages_ok (va pa perm x : Nat) (s : KState)
    (hpt : s.pagetable (va / PGSIZE) = some x) :
    mappages va pa perm s =
      (0, { s with
              pagetable := setPte s.pagetable (va / PGSIZE) (PA2PTE pa ||| perm ||| PTE_V) }) := by
  unfold mappages
  rw [walk_some s va x hpt]

theorem copy_and_remap_page_fail (cfg : Config) (va pte : Nat) (s : KState)
    (h : s.freelist = 0) : copy_and_remap_page cfg va pte s = .ok (-1, s) := by
  unfold copy_and_remap_page
  simp only [kalloc_empty cfg s h]
  rfl

theorem copy_and_remap_page_ok (cfg : Config) (va pte g : Nat) (s sb s2 s3 : KState)
    (hk : kalloc cfg s = (g, sb)) (hg : g ≠ 0)
    (hu : uvmunmap cfg (PGROUNDDOWN va)
      { sb with mem := memmove sb.mem g (PTE2PA (readPte s pte)) PGSIZE } = .ok s2)
    (hmap : mappages va g (andNot (PTE_FLAGS (readPte s pte) ||| PTE_W) cfg.PTE_COW) s2
      = (0, s3))
    (hpt : sb.pagetable = s.pagetable) :
    copy_and_remap_page cfg va pte s = .ok (0, s3) := by
  have hr : readPte { sb with mem := memmove sb.mem g (PTE2PA (readPte s pte)) PGSIZE } pte
      = readPte s pte := by
    unfold readPte
    simp only [hpt]
  unfold copy_and_remap_page
  simp only [hk]
  rw [if_neg hg, hu]
  simp only [hr, hmap]
  rfl

theorem poolInv_congr (cfg : Config) (s s' : KState) (l : List Nat) (h : PoolInv cfg s l)
    (hfl : s'.freelist = s.freelist) (hrefs : s'.references = s.references)
    (hmem : ∀ p ∈ l, ∀ i, i < 8 → s.mem (p + i) = s'.mem (p + i)) : PoolInv cfg s' l := by
  obtain ⟨⟨hl, hnd, hm⟩, hfree, halloc⟩ := h
  refine ⟨⟨?_, hnd, hm⟩, ?_, ?_⟩
  · rw [hfl]
    exact isFreeList_congr s.mem s'.mem l _ hmem hl
  · intro q hq
    unfold refcount
    rw [hrefs]
    exact hfree q hq
  · intro q hqm hq
    unfold refcount
    rw [hrefs]
    exact halloc q hqm hq

theorem memmove_inside (m : Nat → Nat) (dst src n i : Nat) (h : i < n) :
    memmove m dst src n (dst + i) = m (src + i) := by
  simp only [memmove]
  rw [if_pos (by omega), Nat.add_sub_cancel_left]

theorem memmove_outside (m : Nat → Nat) (dst src n x : Nat) (h : x < dst ∨ dst + n ≤ x) :
    memmove m dst src n x = m x := by
  simp only [memmove]
  rw [if_neg (by omega)]

theorem kalloc_effect (cfg : Config) (s : KState) (g : Nat) (l : List Nat)
    (h : FreeListIs cfg s (g :: l)) :
    ∃ sb, kalloc cfg s = (g, sb) ∧ sb.mem = memset s.mem g 69 PGSIZE ∧
      sb.references = setRef s.references (cfg.PA2REF g) (CInt.wrap 1) ∧
      sb.pagetable = s.pagetable ∧ sb.pagefaultcount = s.pagefaultcount := by
  have hg : s.freelist = g := h.1.1
  have hne : s.freelist ≠ 0 := by
    rw [hg]
    exact h.1.2.1
  have hk := kalloc_nonempty cfg s hne
  rw [hg] at hk
  exact ⟨_, hk, rfl, rfl, rfl, rfl⟩

/-- What `copy_and_remap_page` does on a valid entry `e` for a managed frame
with share count at least `1`, in a state that satisfies the pool invariant
with free list `g :: l`: it takes `g`, copies the old frame into it, releases
the old frame through `kfree` and maps the page to `g`. -/
theorem copy_and_remap_page_spec (cfg : Config) (hv : cfg.Valid) (va e g : Nat)
    (l : List Nat) (s : KState) (hpt : s.pagetable (va / PGSIZE) = some e)
    (hV : e &&& PTE_V ≠ 0) (hinv : PoolInv cfg s (g :: l)) (hm : managed cfg (PTE2PA e))
    (hc : 1 ≤ refcount cfg s (PTE2PA e)) :
    ∃ s', copy_and_remap_page cfg va (va / PGSIZE) s = .ok (0, s') ∧
      s'.pagetable (va / PGSIZE)
        = some (PA2PTE g ||| andNot (PTE_FLAGS e ||| PTE_W) cfg.PTE_COW ||| PTE_V) ∧
      g ≠ PTE2PA e ∧
      (∀ i, i < PGSIZE → s'.mem (g + i) = s.mem (PTE2PA e + i)) ∧
      refcount cfg s' g = 1 ∧
      refcount cfg s' (PTE2PA e) = refcount cfg s (PTE2PA e) - 1 ∧
      (2 ≤ refcount cfg s (PTE2PA e) → PoolInv cfg s' l) ∧
      (refcount cfg s (PTE2PA e) = 1 → PoolInv cfg s' (PTE2PA e :: l)) ∧
      s'.pagefaultcount = s.pagefaultcount := by
  have hfl := hinv.1
  have hg0 : g ≠ 0 := hfl.1.2.1
  have hgm : managed cfg g := hfl.2.2 g (List.mem_cons_self g l)
  have hFnot := poolInv_not_mem cfg s (g :: l) (PTE2PA e) hinv hc
  have hgF : g ≠ PTE2PA e := fun h => hFnot (h ▸ List.mem_cons_self g l)
  have hidx : cfg.PA2REF (PTE2PA e) ≠ cfg.PA2REF g := fun h =>
    hgF (hv.ref_inj _ _ hm hgm h).symm
  have hhi := (s.references (cfg.PA2REF (PTE2PA e))).hi
  obtain ⟨sb, hk, hbmem, hbrefs, hbpt, hbpf⟩ := kalloc_effect cfg s g l hfl
  have hinvb : PoolInv cfg sb l := by
    have := poolInv_kalloc cfg hv s (g :: l) hinv
    rw [hk] at this
    exact this
  have hinv1 : PoolInv cfg { sb with mem := memmove sb.mem g (PTE2PA e) PGSIZE } l := by
    refine poolInv_congr cfg sb _ l hinvb rfl rfl ?_
    intro q hq i hi
    have hqg : q ≠ g := by
      rintro rfl
      exact (List.nodup_cons.mp hfl.2.1).1 hq
    have hd := page_disjoint g q i hgm.1 (hinvb.1.2.2 q hq).1 hqg
      (by simp only [PGSIZE]; omega)
    exact (memmove_outside _ _ _ _ _ hd).symm
  have hc1 : refcount cfg { sb with mem := memmove sb.mem g (PTE2PA e) PGSIZE } (PTE2PA e)
      = refcount cfg s (PTE2PA e) := by
    simp only [refcount, hbrefs]
    rw [setRef_other _ _ _ _ hidx]
  obtain ⟨t, hkf, htpt, htpf, htrefs, htmem⟩ := kfree_effect cfg (PTE2PA e)
    { sb with mem := memmove sb.mem g (PTE2PA e) PGSIZE } hm (by rw [hc1]; exact hc)
  have hu := uvmunmap_ok cfg (PGROUNDDOWN va) e
    { sb with mem := memmove sb.mem g (PTE2PA e) PGSIZE } t (PGROUNDDOWN_page va).1
    (by
      rw [(PGROUNDDOWN_page va).2]
      show sb.pagetable (va / PGSIZE) = some e
      rw [hbpt]
      exact hpt) hV hkf
  rw [(PGROUNDDOWN_page va).2] at hu
  have hmap := mappages_ok va g (andNot (PTE_FLAGS e ||| PTE_W) cfg.PTE_COW) 0
    { t with pagetable := setPte t.pagetable (va / PGSIZE) 0 } (by simp [setPte])
  have hr := readPte_some s (va / PGSIZE) e hpt
  have hcr := copy_and_remap_page_ok cfg va (va / PGSIZE) g s sb _ _ hk hg0
    (by rw [hr]; exact hu) (by rw [hr]; exact hmap) hbpt
  have hkinv := poolInv_kfree cfg hv _ t l (PTE2PA e) hinv1 (by rw [hc1]; exact hc) hkf
  rw [hc1] at hkinv htrefs
  refine ⟨_, hcr, by simp [setPte], hgF, ?_, ?_, ?_, ?_, ?_, ?_⟩
  · intro i hi
    simp only
    rw [htmem _ (page_disjoint (PTE2PA e) g i hm.1 hgm.1 hgF hi)]
    simp only
    rw [memmove_inside _ _ _ _ _ hi, hbmem,
      memset_outside _ _ _ _ _ (page_disjoint g (PTE2PA e) i hgm.1 hm.1 (Ne.symm hgF) hi)]
  · simp only [refcount, htrefs]
    rw [setRef_other _ _ _ _ (Ne.symm hidx)]
    simp only [hbrefs, setRef_same]
    decide
  · simp only [refcount, htrefs, setRef_same]
    unfold refcount at hc
    exact CInt.wrap_val _ (by omega) (by omega)
  · intro h2
    rcases hkinv with ⟨-, h⟩ | ⟨h1, -⟩
    · exact poolInv_congr cfg t _ l h rfl rfl (fun _ _ _ _ => rfl)
    · omega
  · intro h1
    rcases hkinv with ⟨h2, -⟩ | ⟨-, h⟩
    · omega
    · exact poolInv_congr cfg t _ _ h rfl rfl (fun _ _ _ _ => rfl)
  · simp only
    rw [htpf]
    exact hbpf

theorem pagefaulthandler_step (cfg : Config) (va e : Nat) (s : KState)
    (hval : (handle_page_fault cfg va s).1 = 0)
    (hpt : s.pagetable (va / PGSIZE) = some e) :
    e &&& PTE_V ≠ 0 ∧
      pagefaulthandler cfg va s = copy_and_remap_page cfg va (va / PGSIZE)
        { s with pagefaultcount := s.pagefaultcount + 1 } := by
  obtain ⟨e', he', hV, -, -, -, -, hh⟩ := handle_page_fault_ok cfg va s hval
  rw [hpt] at he'
  injection he' with he'
  subst he'
  refine ⟨hV, ?_⟩
  unfold pagefaulthandler
  simp only [hh]
  rw [if_neg (by decide),
    walk_some { s with pagefaultcount := s.pagefaultcount + 1 } va e hpt]

theorem fault_resolve (cfg : Config) (hv : cfg.Valid) (va e g : Nat) (l : List Nat)
    (s : KState) (hval : (handle_page_fault cfg va s).1 = 0)
    (hpt : s.pagetable (va / PGSIZE) = some e) (hm : managed cfg (PTE2PA e))
    (hc : 1 ≤ refcount cfg s (PTE2PA e)) (hinv : PoolInv cfg s (g :: l)) :
    ∃ s', pagefaulthandler cfg va s = .ok (0, s') ∧
      PTE2PA (readPte s' (va / PGSIZE)) = g ∧ g ≠ PTE2PA e ∧
      (∀ i, i < PGSIZE → s'.mem (g + i) = s.mem (PTE2PA e + i)) ∧
      refcount cfg s' g = 1 ∧
      refcount cfg s' (PTE2PA e) = refcount cfg s (PTE2PA e) - 1 ∧
      (2 ≤ refcount cfg s (PTE2PA e) → PoolInv cfg s' l) ∧
      (refcount cfg s (PTE2PA e) = 1 → PoolInv cfg s' (PTE2PA e :: l)) ∧
      PTE_FLAGS (readPte s' (va / PGSIZE)) = andNot (PTE_FLAGS e ||| PTE_W) cfg.PTE_COW ∧
      readPte s' (va / PGSIZE) &&& PTE_W ≠ 0 ∧
      readPte s' (va / PGSIZE) &&& cfg.PTE_COW = 0 ∧
      s'.pagefaultcount = s.pagefaultcount + 1 := by
  obtain ⟨hV, hstep⟩ := pagefaulthandler_step cfg va e s hval hpt
  have hinv' : PoolInv cfg { s with pagefaultcount := s.pagefaultcount + 1 } (g :: l) :=
    poolInv_congr cfg s _ _ hinv rfl rfl (fun _ _ _ _ => rfl)
  obtain ⟨s', h1, h2, h3, h4, h5, h6, h7, h8, h9⟩ :=
    copy_and_remap_page_spec cfg hv va e g l
      { s with pagefaultcount := s.pagefaultcount + 1 } hpt hV hinv' hm hc
  have hgm : managed cfg g := hinv.1.2.2 g (List.mem_cons_self g l)
  have hbits := newPte_spec g e cfg.PTE_COW hgm.1 hV hv.cow_not_valid hv.cow_not_writable
    hv.cow_flag
  have hr := readPte_some s' (va / PGSIZE) _ h2
  refine ⟨s', hstep.trans h1, ?_, h3, h4, h5, h6, h7, h8, ?_, ?_, ?_, h9⟩
  · rw [hr]
    exact hbits.1
  · rw [hr]
    exact hbits.2.1
  · rw [hr]
    exact hbits.2.2.1
  · rw [hr]
    exact hbits.2.2.2

theorem cowState_poolInv (n : Int) (h1 : 1 ≤ n) (h2 : n ≤ 2147483647) :
    PoolInv cfg2 (cowState n) [4096] := by
  refine ⟨cowState_freeList n, ?_, ?_⟩
  · intro p hp
    rw [List.mem_singleton.mp hp]
    left
    rfl
  · intro p hp hnot
    have hp8 : p = 8192 := by
      have : p ≠ 4096 := fun h => hnot (by simp [h])
      simp only [managed, cfg2, PGSIZE] at hp
      omega
    subst hp8
    show (setRef (fun _ => CInt.wrap 0) 2 (CInt.wrap n) 2).val ≥ 1
    rw [setRef_same, CInt.wrap_val n (by omega) h2]
    exact h1

/-! ## C1: the sole-owner path -/

/-- C1, as stated, fails: in the sample state frame 8192 has share count `1`
and is mapped copy-on-write at virtual page 1; the fault at address 5000
passes validation, and the handler allocates frame 4096 and maps the page to
it (a different frame), frees frame 8192 (count `0`, now the free list), and
with an empty free list the same fault returns `-1` instead of resolving. -/
theorem sole_owner_fault_allocates :
    (handle_page_fault cfg2 5000 (cowState 1)).1 = 0 ∧
      PTE2PA (readPte (cowState 1) (5000 / PGSIZE)) = 8192 ∧
      refcount cfg2 (cowState 1) 8192 = 1 ∧
      (∃ s', pagefaulthandler cfg2 5000 (cowState 1) = .ok (0, s') ∧
        PTE2PA (readPte s' (5000 / PGSIZE)) = 4096 ∧ refcount cfg2 s' 4096 = 1 ∧
        refcount cfg2 s' 8192 = 0 ∧ FreeListIs cfg2 s' [8192]) ∧
      (handle_page_fault cfg2 5000 { cowState 1 with freelist := 0 }).1 = 0 ∧
      ∃ t, pagefaulthandler cfg2 5000 { cowState 1 with freelist := 0 } = .ok (-1, t) := by
  have hval : (handle_page_fault cfg2 5000 (cowState 1)).1 = 0 := by decide
  have hval0 : (handle_page_fault cfg2 5000 { cowState 1 with freelist := 0 }).1 = 0 := by
    decide
  have hpt : (cowState 1).pagetable (5000 / PGSIZE) = some 2323 := by decide
  have hF : PTE2PA 2323 = 8192 := by decide
  obtain ⟨s', h1, h2, -, -, h5, h6, -, h8, -⟩ := fault_resolve cfg2 cfg2_valid 5000 2323 4096
    [] (cowState 1) hval hpt (by decide) (by decide)
    (cowState_poolInv 1 (by decide) (by decide))
  rw [hF] at h6 h8
  refine ⟨hval, by decide, by decide, ⟨s', h1, h2, h5, ?_, (h8 (by decide)).1⟩, hval0, ?_⟩
  · rw [h6]
    decide
  · have hstep := (pagefaulthandler_step cfg2 5000 2323 { cowState 1 with freelist := 0 }
      hval0 hpt).2
    rw [hstep, copy_and_remap_page_fail cfg2 _ _ _ rfl]
    exact ⟨_, rfl⟩

/-- C1 (amended): for a fault that passes validation on a page whose managed
frame `F` has share count `1`, the handler does allocate. When the pool
invariant holds with a non-empty free list `g :: l`, it returns `0`, the page
maps to the new frame `g` (different from `F`) holding a copy of `F`'s bytes,
`g` has share count `1`, `F` is released through `kfree` (count `0`, pushed on
the free list), and the new entry has the writable bit set and the
copy-on-write bit cleared. When the free list is empty it returns `-1` and
only the fault counter has changed. -/
theorem cow_sole_owner_path (cfg : Config) (hv : cfg.Valid) (va e : Nat) (s : KState)
    (hval : (handle_page_fault cfg va s).1 = 0)
    (hpt : s.pagetable (va / PGSIZE) = some e) (hm : managed cfg (PTE2PA e))
    (hc : refcount cfg s (PTE2PA e) = 1) :
    (∀ g l, PoolInv cfg s (g :: l) →
      ∃ s', pagefaulthandler cfg va s = .ok (0, s') ∧
        PTE2PA (readPte s' (va / PGSIZE)) = g ∧ g ≠ PTE2PA e ∧
        (∀ i, i < PGSIZE → s'.mem (g + i) = s.mem (PTE2PA e + i)) ∧
        refcount cfg s' g = 1 ∧ refcount cfg s' (PTE2PA e) = 0 ∧
        PoolInv cfg s' (PTE2PA e :: l) ∧
        readPte s' (va / PGSIZE) &&& PTE_W ≠ 0 ∧
        readPte s' (va / PGSIZE) &&& cfg.PTE_COW = 0) ∧
      (s.freelist = 0 →
        pagefaulthandler cfg va s
          = .ok (-1, { s with pagefaultcount := s.pagefaultcount + 1 })) := by
  constructor
  · intro g l hinv
    obtain ⟨s', h1, h2, h3, h4, h5, h6, -, h8, -, h10, h11, -⟩ :=
      fault_resolve cfg hv va e g l s hval hpt hm (by omega) hinv
    exact ⟨s', h1, h2, h3, h4, h5, by omega, h8 hc, h10, h11⟩
  · intro h0
    rw [(pagefaulthandler_step cfg va e s hval hpt).2]
    exact copy_and_remap_page_fail cfg va _ _ h0

/-- Witness for C1 (amended): the fault at address 5000 in the sample state
with share count `1`. -/
theorem cow_sole_owner_path_witness :
    cfg2.Valid ∧ (handle_page_fault cfg2 5000 (cowState 1)).1 = 0 ∧
      (cowState 1).pagetable (5000 / PGSIZE) = some 2323 ∧ managed cfg2 (PTE2PA 2323) ∧
      refcount cfg2 (cowState 1) (PTE2PA 2323) = 1 ∧ PoolInv cfg2 (cowState 1) [4096] ∧
      ∃ s', pagefaulthandler cfg2 5000 (cowState 1) = .ok (0, s') ∧
        PTE2PA (readPte s' (5000 / PGSIZE)) = 4096 ∧ 4096 ≠ PTE2PA 2323 ∧
        (∀ i, i < PGSIZE → s'.mem (4096 + i) = (cowState 1).mem (PTE2PA 2323 + i)) ∧
        refcount cfg2 s' 4096 = 1 ∧ refcount cfg2 s' (PTE2PA 2323) = 0 ∧
        PoolInv cfg2 s' [PTE2PA 2323] ∧
        readPte s' (5000 / PGSIZE) &&& PTE_W ≠ 0 ∧
        readPte s' (5000 / PGSIZE) &&& cfg2.PTE_COW = 0 :=
  ⟨cfg2_valid, by decide, by decide, by decide, by decide,
    cowState_poolInv 1 (by decide) (by decide),
    (cow_sole_owner_path cfg2 cfg2_valid 5000 2323 (cowState 1) (by decide) (by decide)
      (by decide) (by decide)).1 4096 [] (cowState_poolInv 1 (by decide) (by decide))⟩

/-! ## C2: the shared path -/

/-- C2: for a fault that passes validation on a page whose managed frame `F`
has share count `2`, in a state that satisfies the pool invariant with a
non-empty free list `g :: l`, the handler returns `0`; afterwards the page
maps to `g`, a frame different from `F` whose 4096 bytes equal the bytes `F`
had at the fault, `F` and `g` both have share count `1`, the flags of the new
entry are the old flags with the writable bit set and the copy-on-write bit
cleared, and the pool invariant holds with free list `l`. -/
theorem cow_shared_path (cfg : Config) (hv : cfg.Valid) (va e g : Nat) (l : List Nat)
    (s : KState) (hval : (handle_page_fault cfg va s).1 = 0)
    (hpt : s.pagetable (va / PGSIZE) = some e) (hm : managed cfg (PTE2PA e))
    (hc : refcount cfg s (PTE2PA e) = 2) (hinv : PoolInv cfg s (g :: l)) :
    ∃ s', pagefaulthandler cfg va s = .ok (0, s') ∧
      PTE2PA (readPte s' (va / PGSIZE)) = g ∧ g ≠ PTE2PA e ∧
      (∀ i, i < 4096 → s'.mem (g + i) = s.mem (PTE2PA e + i)) ∧
      refcount cfg s' (PTE2PA e) = 1 ∧ refcount cfg s' g = 1 ∧
      PTE_FLAGS (readPte s' (va / PGSIZE)) = andNot (PTE_FLAGS e ||| PTE_W) cfg.PTE_COW ∧
      readPte s' (va / PGSIZE) &&& PTE_W ≠ 0 ∧
      readPte s' (va / PGSIZE) &&& cfg.PTE_COW = 0 ∧
      PoolInv cfg s' l := by
  obtain ⟨s', h1, h2, h3, h4, h5, h6, h7, -, h9, h10, h11, -⟩ :=
    fault_resolve cfg hv va e g l s hval hpt hm (by omega) hinv
  exact ⟨s', h1, h2, h3, h4, by omega, h5, h9, h10, h11, h7 (by omega)⟩

/-- Witness for C2: the fault at address 5000 in the sample state with share
count `2`. -/
theorem cow_shared_path_witness :
    cfg2.Valid ∧ (handle_page_fault cfg2 5000 (cowState 2)).1 = 0 ∧
      (cowState 2).pagetable (5000 / PGSIZE) = some 2323 ∧ managed cfg2 (PTE2PA 2323) ∧
      refcount cfg2 (cowState 2) (PTE2PA 2323) = 2 ∧ PoolInv cfg2 (cowState 2) [4096] ∧
      ∃ s', pagefaulthandler cfg2 5000 (cowState 2) = .ok (0, s') ∧
        PTE2PA (readPte s' (5000 / PGSIZE)) = 4096 ∧ 4096 ≠ PTE2PA 2323 ∧
        (∀ i, i < 4096 → s'.mem (4096 + i) = (cowState 2).mem (PTE2PA 2323 + i)) ∧
        refcount cfg2 s' (PTE2PA 2323) = 1 ∧ refcount cfg2 s' 4096 = 1 ∧
        PTE_FLAGS (readPte s' (5000 / PGSIZE))
          = andNot (PTE_FLAGS 2323 ||| PTE_W) cfg2.PTE_COW ∧
        readPte s' (5000 / PGSIZE) &&& PTE_W ≠ 0 ∧
        readPte s' (5000 / PGSIZE) &&& cfg2.PTE_COW = 0 ∧
        PoolInv cfg2 s' [] :=
  ⟨cfg2_valid, by decide, by decide, by decide, by decide,
    cowState_poolInv 2 (by decide) (by decide),
    cow_shared_path cfg2 cfg2_valid 5000 2323 4096 [] (cowState 2) (by decide) (by decide)
      (by decide) (by decide) (cowState_poolInv 2 (by decide) (by decide))⟩

/-! ## Validation and the result of the fault handler -/

theorem handle_page_fault_cases (cfg : Config) (va : Nat) (s : KState) :
    handle_page_fault cfg va s = (-1, s) ∨
      handle_page_fault cfg va s = (0, { s with pagefaultcount := s.pagefaultcount + 1 }) := by
  unfold handle_page_fault
  split
  · left
    rfl
  · split
    · left
      rfl
    · split
      · left
        rfl
      · right
        rfl

theorem handle_page_fault_reject (cfg : Config) (va : Nat) (s : KState)
    (h : (handle_page_fault cfg va s).1 = -1) : handle_page_fault cfg va s = (-1, s) := by
  have hne : ((0 : Int) = -1) → False := by decide
  rcases handle_page_fault_cases cfg va s with h1 | h1
  · exact h1
  · rw [h1] at h
    exact (hne h).elim

theorem pagefaulthandler_reject (cfg : Config) (va : Nat) (s : KState)
    (h : (handle_page_fault cfg va s).1 = -1) : pagefaulthandler cfg va s = .ok (-1, s) := by
  unfold pagefaulthandler
  simp only [handle_page_fault_reject cfg va s h]
  rfl

theorem pagefaulthandler_exhausted (cfg : Config) (va : Nat) (s : KState)
    (h : (handle_page_fault cfg va s).1 = 0) (h0 : s.freelist = 0) :
    pagefaulthandler cfg va s
      = .ok (-1, { s with pagefaultcount := s.pagefaultcount + 1 }) := by
  obtain ⟨e, hpt, -⟩ := handle_page_fault_ok cfg va s h
  rw [(pagefaulthandler_step cfg va e s h hpt).2]
  exact copy_and_remap_page_fail cfg va _ _ h0

theorem copy_and_remap_page_result (cfg : Config) (va pte : Nat) (s : KState)
    (hne : s.freelist ≠ 0) (v : Int) (t : KState)
    (h : copy_and_remap_page cfg va pte s = .ok (v, t)) : v = 0 := by
  unfold copy_and_remap_page at h
  simp only [kalloc_nonempty cfg s hne] at h
  rw [if_neg hne] at h
  split at h
  · cases h
  · split at h
    · cases h
    · injection h with h
      injection h with h1 h2
      exact h1.symm

theorem pagefaulthandler_allocated (cfg : Config) (va : Nat) (s : KState)
    (h : (handle_page_fault cfg va s).1 = 0) (hne : s.freelist ≠ 0) (v : Int) (t : KState)
    (hr : pagefaulthandler cfg va s = .ok (v, t)) : v = 0 := by
  obtain ⟨e, hpt, -⟩ := handle_page_fault_ok cfg va s h
  rw [(pagefaulthandler_step cfg va e s h hpt).2] at hr
  exact copy_and_remap_page_result cfg va _
    { s with pagefaultcount := s.pagefaultcount + 1 } hne v t hr

/-! ## C13: what validation accepts -/

/-- C13: `handle_page_fault` returns `0` if and only if the virtual address is
strictly positive and below `MAXVA`, the page-table lookup finds an entry
slot, and the entry in it has the valid, user-accessible and copy-on-write
bits set; its result is `0` or `-1`, so it rejects with `-1` in every other
case. -/
theorem handle_page_fault_accepts_iff (cfg : Config) (va : Nat) (s : KState) :
    ((handle_page_fault cfg va s).1 = 0 ↔
      (0 < va ∧ va < cfg.MAXVA ∧
        ∃ pte, walk s va = some pte ∧ readPte s pte &&& PTE_V ≠ 0 ∧
          readPte s pte &&& PTE_U ≠ 0 ∧ readPte s pte &&& cfg.PTE_COW ≠ 0)) ∧
      ((handle_page_fault cfg va s).1 = 0 ∨ (handle_page_fault cfg va s).1 = -1) := by
  constructor
  · constructor
    · intro h
      obtain ⟨e, hpt, hV, hU, hC, hpos, hlt, -⟩ := handle_page_fault_ok cfg va s h
      refine ⟨hpos, hlt, va / PGSIZE, walk_some s va e hpt, ?_, ?_, ?_⟩
      · rw [readPte_some s _ e hpt]
        exact hV
      · rw [readPte_some s _ e hpt]
        exact hU
      · rw [readPte_some s _ e hpt]
        exact hC
    · rintro ⟨hpos, hlt, pte, hw, hV, hU, hC⟩
      unfold handle_page_fault
      rw [if_neg (by omega), hw]
      simp only
      rw [if_neg (by
        rintro (h | h | h)
        · exact hV h
        · exact hU h
        · exact hC h)]
  · rcases handle_page_fault_cases cfg va s with h | h
    · right
      rw [h]
    · left
      rw [h]

/-- Witness for C13: the fault at address 5000 in the sample state is
accepted; the result at address 0 is `0` or `-1`. -/
theorem handle_page_fault_accepts_iff_witness :
    (0 < 5000 ∧ 5000 < cfg2.MAXVA ∧
      ∃ pte, walk (cowState 1) 5000 = some pte ∧ readPte (cowState 1) pte &&& PTE_V ≠ 0 ∧
        readPte (cowState 1) pte &&& PTE_U ≠ 0 ∧
        readPte (cowState 1) pte &&& cfg2.PTE_COW ≠ 0) ∧
      (handle_page_fault cfg2 5000 (cowState 1)).1 = 0 ∧
      ((handle_page_fault cfg2 0 (cowState 1)).1 = 0 ∨
        (handle_page_fault cfg2 0 (cowState 1)).1 = -1) :=
  ⟨⟨by decide, by decide, 1, by decide, by decide, by decide, by decide⟩,
    (handle_page_fault_accepts_iff cfg2 5000 (cowState 1)).1.2
      ⟨by decide, by decide, 1, by decide, by decide, by decide, by decide⟩,
    (handle_page_fault_accepts_iff cfg2 0 (cowState 1)).2⟩

/-! ## C14: what validation changes -/

/-- C14: whatever its result, `handle_page_fault` leaves the page table, the
free list, every share count and the memory as they were; the fault counter
rises by exactly `1` when the result is `0` and is unchanged when the result
is `-1`. The counter therefore also rises for an accepted fault whose
resolution then fails for lack of a free frame. -/
theorem handle_page_fault_frame (cfg : Config) (va : Nat) (s : KState) :
    (handle_page_fault cfg va s).2.pagetable = s.pagetable ∧
      (handle_page_fault cfg va s).2.freelist = s.freelist ∧
      (handle_page_fault cfg va s).2.references = s.references ∧
      (handle_page_fault cfg va s).2.mem = s.mem ∧
      ((handle_page_fault cfg va s).1 = 0 →
        (handle_page_fault cfg va s).2.pagefaultcount = s.pagefaultcount + 1) ∧
      ((handle_page_fault cfg va s).1 = -1 →
        (handle_page_fault cfg va s).2.pagefaultcount = s.pagefaultcount) ∧
      ((handle_page_fault cfg va s).1 = 0 → s.freelist = 0 →
        ∃ t, pagefaulthandler cfg va s = .ok (-1, t) ∧
          t.pagefaultcount = s.pagefaultcount + 1) := by
  refine ⟨?_, ?_, ?_, ?_, ?_, ?_, ?_⟩
  · rcases handle_page_fault_cases cfg va s with h | h <;> rw [h]
  · rcases handle_page_fault_cases cfg va s with h | h <;> rw [h]
  · rcases handle_page_fault_cases cfg va s with h | h <;> rw [h]
  · rcases handle_page_fault_cases cfg va s with h | h <;> rw [h]
  · intro h0
    have hne : ((-1 : Int) = 0) → False := by decide
    rcases handle_page_fault_cases cfg va s with h | h
    · rw [h] at h0
      exact (hne h0).elim
    · rw [h]
  · intro h1
    rw [handle_page_fault_reject cfg va s h1]
  · intro h0 hfl
    exact ⟨_, pagefaulthandler_exhausted cfg va s h0 hfl, rfl⟩

/-- Witness for C14: an accepted fault (address 5000) and a rejected one
(address 0) in the sample state, and an accepted fault with an empty free
list. -/
theorem handle_page_fault_frame_witness :
    (handle_page_fault cfg2 5000 (cowState 1)).1 = 0 ∧
      (handle_page_fault cfg2 5000 (cowState 1)).2.pagefaultcount
        = (cowState 1).pagefaultcount + 1 ∧
      (handle_page_fault cfg2 0 (cowState 1)).1 = -1 ∧
      (handle_page_fault cfg2 0 (cowState 1)).2.pagefaultcount
        = (cowState 1).pagefaultcount ∧
      (handle_page_fault cfg2 5000 (cowStateEmpty 1)).1 = 0 ∧
      ∃ t, pagefaulthandler cfg2 5000 (cowStateEmpty 1) = .ok (-1, t) ∧
        t.pagefaultcount = (cowState 1).pagefaultcount + 1 :=
  ⟨by decide,
    (handle_page_fault_frame cfg2 5000 (cowState 1)).2.2.2.2.1 (by decide),
    by decide,
    (handle_page_fault_frame cfg2 0 (cowState 1)).2.2.2.2.2.1 (by decide),
    by decide,
    (handle_page_fault_frame cfg2 5000 (cowStateEmpty 1)).2.2.2.2.2.2
      (by decide) rfl⟩

/-! ## C15: the result of the fault handler -/

/-- C15: `pagefaulthandler` returns `-1` whenever `handle_page_fault` rejects,
and whenever it accepts but `kalloc` finds the free list empty; for an
accepted fault with a non-empty free list every normal return is `0`, and the
handler does return `0` when the entry maps a managed frame with share count
at least `1` and the pool invariant holds (the unmap and the remap then
succeed). -/
theorem pagefaulthandler_result (cfg : Config) (va : Nat) (s : KState) :
    ((handle_page_fault cfg va s).1 = -1 → pagefaulthandler cfg va s = .ok (-1, s)) ∧
      ((handle_page_fault cfg va s).1 = 0 → s.freelist = 0 →
        pagefaulthandler cfg va s
          = .ok (-1, { s with pagefaultcount := s.pagefaultcount + 1 })) ∧
      ((handle_page_fault cfg va s).1 = 0 → s.freelist ≠ 0 →
        ∀ v t, pagefaulthandler cfg va s = .ok (v, t) → v = 0) ∧
      (cfg.Valid → (handle_page_fault cfg va s).1 = 0 →
        ∀ e g l, s.pagetable (va / PGSIZE) = some e → managed cfg (PTE2PA e) →
          1 ≤ refcount cfg s (PTE2PA e) → PoolInv cfg s (g :: l) →
          ∃ t, pagefaulthandler cfg va s = .ok (0, t)) := by
  refine ⟨pagefaulthandler_reject cfg va s, pagefaulthandler_exhausted cfg va s,
    pagefaulthandler_allocated cfg va s, ?_⟩
  intro hv hval e g l hpt hm hc hinv
  obtain ⟨t, ht, -⟩ := fault_resolve cfg hv va e g l s hval hpt hm hc hinv
  exact ⟨t, ht⟩

/-- Witness for C15: in the sample state the fault at address 0 is rejected,
the fault at 5000 fails on an empty free list and succeeds on the free list
`[4096]`. -/
theorem pagefaulthandler_result_witness :
    (handle_page_fault cfg2 0 (cowState 1)).1 = -1 ∧
      pagefaulthandler cfg2 0 (cowState 1) = .ok (-1, cowState 1) ∧
      (handle_page_fault cfg2 5000 (cowStateEmpty 1)).1 = 0 ∧
      pagefaulthandler cfg2 5000 (cowStateEmpty 1)
        = .ok (-1, { cowStateEmpty 1 with
            pagefaultcount := (cowStateEmpty 1).pagefaultcount + 1 }) ∧
      cfg2.Valid ∧ (handle_page_fault cfg2 5000 (cowState 2)).1 = 0 ∧
      (cowState 2).freelist ≠ 0 ∧
      (∀ v t, pagefaulthandler cfg2 5000 (cowState 2) = .ok (v, t) → v = 0) ∧
      ∃ t, pagefaulthandler cfg2 5000 (cowState 2) = .ok (0, t) :=
  ⟨by decide,
    (pagefaulthandler_result cfg2 0 (cowState 1)).1 (by decide),
    by decide,
    (pagefaulthandler_result cfg2 5000 (cowStateEmpty 1)).2.1 (by decide) rfl,
    cfg2_valid, by decide, by decide,
    (pagefaulthandler_result cfg2 5000 (cowState 2)).2.2.1 (by decide) (by decide),
    (pagefaulthandler_result cfg2 5000 (cowState 2)).2.2.2 cfg2_valid (by decide) 2323 4096 []
      (by decide) (by decide) (by decide) (cowState_poolInv 2 (by decide) (by decide))⟩

/-! ## C19: exhaustion inside `copyanddecreasereferences` -/

theorem copy_page_exhausted (cfg : Config) (pa : Nat) (s : KState)
    (ht : 0 ≤ cfg.PA2REF pa ∧ cfg.PA2REF pa < cfg.MAXREFERENCES) (he : s.freelist = 0) :
    copy_page cfg pa s = (0, s) := by
  unfold copy_page
  simp only [kalloc_empty cfg s he]
  rw [if_neg (by omega)]
  rfl

/-- C19: on a tracked frame with share count `c > 1` and an empty free list,
`copyanddecreasereferences` returns `0`; the frame's count is `c - 1`
afterwards (the decrement is kept), the free list is still empty, and every
other count, the memory, the page table and the fault counter are
unchanged. -/
theorem copyanddecreasereferences_exhausted (cfg : Config) (pa : Nat) (s : KState)
    (ht : 0 ≤ cfg.PA2REF pa ∧ cfg.PA2REF pa < cfg.MAXREFERENCES)
    (hc : 1 < refcount cfg s pa) (he : s.freelist = 0) :
    ∃ s', copyanddecreasereferences cfg pa s = (0, s') ∧
      refcount cfg s' pa = refcount cfg s pa - 1 ∧ s'.freelist = 0 ∧
      (∀ i, i ≠ cfg.PA2REF pa → s'.references i = s.references i) ∧
      s'.mem = s.mem ∧ s'.pagetable = s.pagetable ∧
      s'.pagefaultcount = s.pagefaultcount := by
  have hhi := (s.references (cfg.PA2REF pa)).hi
  unfold refcount at hc
  have hd : decreasereferences_and_check cfg pa s
      = (1, { s with
          references := setRef s.references (cfg.PA2REF pa)
            (CInt.wrap ((s.references (cfg.PA2REF pa)).val - 1)) }) := by
    unfold decreasereferences_and_check
    simp only
    rw [if_neg (by omega), if_neg (by omega)]
  refine ⟨{ s with
      references := setRef s.references (cfg.PA2REF pa)
        (CInt.wrap ((s.references (cfg.PA2REF pa)).val - 1)) }, ?_, ?_, he, ?_, rfl, rfl, rfl⟩
  · unfold copyanddecreasereferences
    simp only [hd]
    rw [if_neg (by decide)]
    exact copy_page_exhausted cfg pa _ ht he
  · simp only [refcount, setRef_same]
    exact CInt.wrap_val _ (by omega) (by omega)
  · intro i hi
    exact setRef_other _ _ _ _ hi

/-- Witness for C19: frame 8192 with share count `3` and an empty free list in
the two-frame configuration. -/
theorem copyanddecreasereferences_exhausted_witness :
    (0 ≤ cfg2.PA2REF 8192 ∧ cfg2.PA2REF 8192 < cfg2.MAXREFERENCES) ∧
      1 < refcount cfg2 (cowStateEmpty 3) 8192 ∧
      ∃ s', copyanddecreasereferences cfg2 8192 (cowStateEmpty 3) = (0, s') ∧
        refcount cfg2 s' 8192 = refcount cfg2 (cowStateEmpty 3) 8192 - 1 ∧
        s'.freelist = 0 ∧
        (∀ i, i ≠ cfg2.PA2REF 8192 → s'.references i = (cowState 3).references i) ∧
        s'.mem = (cowState 3).mem ∧ s'.pagetable = (cowState 3).pagetable ∧
        s'.pagefaultcount = (cowState 3).pagefaultcount :=
  ⟨by decide, by decide,
    copyanddecreasereferences_exhausted cfg2 8192 (cowStateEmpty 3)
      (by decide) (by decide) rfl⟩

/-! ## C20: a failed fault changes nothing but the counter -/

/-- C20: whenever `pagefaulthandler` returns `-1`, the page table, the free
list, every share count and the memory are those of the state before the
call; the fault counter is unchanged or one higher, and it is higher only when
validation accepted and the free list was empty. -/
theorem pagefaulthandler_failure_atomic (cfg : Config) (va : Nat) (s s' : KState)
    (h : pagefaulthandler cfg va s = .ok (-1, s')) :
    s'.pagetable = s.pagetable ∧ s'.freelist = s.freelist ∧
      s'.references = s.references ∧ s'.mem = s.mem ∧
      (s'.pagefaultcount = s.pagefaultcount ∨
        s'.pagefaultcount = s.pagefaultcount + 1) ∧
      (s'.pagefaultcount ≠ s.pagefaultcount →
        (handle_page_fault cfg va s).1 = 0 ∧ s.freelist = 0) := by
  have hres : (handle_page_fault cfg va s).1 = 0 ∨ (handle_page_fault cfg va s).1 = -1 := by
    rcases handle_page_fault_cases cfg va s with h1 | h1
    · right
      rw [h1]
    · left
      rw [h1]
  rcases hres with hval | hrej
  · by_cases h0 : s.freelist = 0
    · rw [pagefaulthandler_exhausted cfg va s hval h0] at h
      injection h with h
      injection h with _ h
      subst h
      exact ⟨rfl, rfl, rfl, rfl, Or.inr rfl, fun _ => ⟨hval, h0⟩⟩
    · have := pagefaulthandler_allocated cfg va s hval h0 (-1) s' h
      exact absurd this (by decide)
  · rw [pagefaulthandler_reject cfg va s hrej] at h
    injection h with h
    injection h with _ h
    subst h
    exact ⟨rfl, rfl, rfl, rfl, Or.inl rfl, fun hne => absurd rfl hne⟩

/-- Witness for C20: the accepted fault at address 5000 that fails on an empty
free list in the sample state; the returned state differs from the initial one
in the fault counter only. -/
theorem pagefaulthandler_failure_atomic_witness :
    pagefaulthandler cfg2 5000 (cowStateEmpty 1)
        = .ok (-1, { cowStateEmpty 1 with
            pagefaultcount := (cowStateEmpty 1).pagefaultcount + 1 }) ∧
      ({ cowStateEmpty 1 with
          pagefaultcount := (cowStateEmpty 1).pagefaultcount + 1 } : KState).pagetable
        = (cowStateEmpty 1).pagetable ∧
      ({ cowStateEmpty 1 with
          pagefaultcount := (cowStateEmpty 1).pagefaultcount + 1 } : KState).freelist
        = (cowStateEmpty 1).freelist ∧
      ({ cowStateEmpty 1 with
          pagefaultcount := (cowStateEmpty 1).pagefaultcount + 1 } : KState).references
        = (cowStateEmpty 1).references ∧
      ({ cowStateEmpty 1 with
          pagefaultcount := (cowStateEmpty 1).pagefaultcount + 1 } : KState).mem
        = (cowStateEmpty 1).mem ∧
      (({ cowStateEmpty 1 with
          pagefaultcount := (cowStateEmpty 1).pagefaultcount + 1 } : KState).pagefaultcount
          = (cowStateEmpty 1).pagefaultcount ∨
        ({ cowStateEmpty 1 with
          pagefaultcount := (cowStateEmpty 1).pagefaultcount + 1 } : KState).pagefaultcount
          = (cowStateEmpty 1).pagefaultcount + 1) ∧
      (({ cowStateEmpty 1 with
          pagefaultcount := (cowStateEmpty 1).pagefaultcount + 1 } : KState).pagefaultcount
          ≠ (cowStateEmpty 1).pagefaultcount →
        (handle_page_fault cfg2 5000 (cowStateEmpty 1)).1 = 0 ∧
          (cowStateEmpty 1).freelist = 0) :=
  ⟨pagefaulthandler_exhausted cfg2 5000 (cowStateEmpty 1) (by decide) rfl,
    pagefaulthandler_failure_atomic cfg2 5000 (cowStateEmpty 1) _
      (pagefaulthandler_exhausted cfg2 5000 (cowStateEmpty 1) (by decide) rfl)⟩

/-! ## C16: `add_the_reference` -/

theorem add_the_reference_untracked (cfg : Config) (pa : Nat) (s : KState)
    (h : ¬ (0 ≤ cfg.PA2REF pa ∧ cfg.PA2REF pa < cfg.MAXREFERENCES)) :
    add_the_reference cfg pa s = s := by
  unfold add_the_reference
  simp only
  rw [if_pos (by omega)]

/-- C16, as stated, fails at the top of the `int` range: in the sample state
with share count `2147483647` (`INT_MAX`) the index of frame 8192 is inside
the table, and after `add_the_reference` its count is `-2147483648`, not one
more. -/
theorem add_the_reference_wraps :
    (0 ≤ cfg2.PA2REF 8192 ∧ cfg2.PA2REF 8192 < cfg2.MAXREFERENCES) ∧
      refcount cfg2 (cowState 2147483647) 8192 = 2147483647 ∧
      refcount cfg2 (add_the_reference cfg2 8192 (cowState 2147483647)) 8192
        = -2147483648 ∧
      refcount cfg2 (add_the_reference cfg2 8192 (cowState 2147483647)) 8192
        ≠ refcount cfg2 (cowState 2147483647) 8192 + 1 := by
  refine ⟨by decide, by decide, ?_, ?_⟩
  · rw [refcount_add_the_reference cfg2 8192 _ (by decide)]
    decide
  · rw [refcount_add_the_reference cfg2 8192 _ (by decide)]
    decide

/-- C16 (amended): for a frame whose index lies inside `[0, MAXREFERENCES)`
and whose share count is below `INT_MAX`, `add_the_reference` raises that
count by exactly `1` and changes nothing else (other counts, free list,
memory, page table, fault counter); for a frame whose index lies outside the
table the state is returned unchanged. -/
theorem add_the_reference_spec (cfg : Config) (pa : Nat) (s : KState) :
    ((0 ≤ cfg.PA2REF pa ∧ cfg.PA2REF pa < cfg.MAXREFERENCES) →
        refcount cfg s pa < INT_MAX →
        refcount cfg (add_the_reference cfg pa s) pa = refcount cfg s pa + 1 ∧
        (∀ i, i ≠ cfg.PA2REF pa →
          (add_the_reference cfg pa s).references i = s.references i) ∧
        (add_the_reference cfg pa s).freelist = s.freelist ∧
        (add_the_reference cfg pa s).mem = s.mem ∧
        (add_the_reference cfg pa s).pagetable = s.pagetable ∧
        (add_the_reference cfg pa s).pagefaultcount = s.pagefaultcount) ∧
      (¬ (0 ≤ cfg.PA2REF pa ∧ cfg.PA2REF pa < cfg.MAXREFERENCES) →
        add_the_reference cfg pa s = s) := by
  refine ⟨?_, add_the_reference_untracked cfg pa s⟩
  intro ht hlt
  have hlo := (s.references (cfg.PA2REF pa)).lo
  unfold INT_MAX at hlt
  refine ⟨?_, ?_, ?_, ?_, ?_, ?_⟩
  · rw [refcount_add_the_reference cfg pa s ht]
    unfold refcount at hlt ⊢
    exact CInt.wrap_val _ (by omega) (by omega)
  · intro i hi
    rw [add_the_reference_tracked cfg pa s ht]
    exact setRef_other _ _ _ _ hi
  · rw [add_the_reference_tracked cfg pa s ht]
  · rw [add_the_reference_tracked cfg pa s ht]
  · rw [add_the_reference_tracked cfg pa s ht]
  · rw [add_the_reference_tracked cfg pa s ht]

/-- Witness for C16 (amended): frame 8192 (index 2, inside the table, count 1)
and address 12288 (index 3, outside the table of size 3) in the sample
state. -/
theorem add_the_reference_spec_witness :
    (0 ≤ cfg2.PA2REF 8192 ∧ cfg2.PA2REF 8192 < cfg2.MAXREFERENCES) ∧
      refcount cfg2 (cowState 1) 8192 < INT_MAX ∧
      (refcount cfg2 (add_the_reference cfg2 8192 (cowState 1)) 8192
          = refcount cfg2 (cowState 1) 8192 + 1 ∧
        (∀ i, i ≠ cfg2.PA2REF 8192 →
          (add_the_reference cfg2 8192 (cowState 1)).references i
            = (cowState 1).references i) ∧
        (add_the_reference cfg2 8192 (cowState 1)).freelist = (cowState 1).freelist ∧
        (add_the_reference cfg2 8192 (cowState 1)).mem = (cowState 1).mem ∧
        (add_the_reference cfg2 8192 (cowState 1)).pagetable = (cowState 1).pagetable ∧
        (add_the_reference cfg2 8192 (cowState 1)).pagefaultcount
          = (cowState 1).pagefaultcount) ∧
      ¬ (0 ≤ cfg2.PA2REF 12288 ∧ cfg2.PA2REF 12288 < cfg2.MAXREFERENCES) ∧
      add_the_reference cfg2 12288 (cowState 1) = cowState 1 :=
  ⟨by decide, by decide,
    (add_the_reference_spec cfg2 8192 (cowState 1)).1 (by decide) (by decide),
    by decide,
    (add_the_reference_spec cfg2 12288 (cowState 1)).2 (by decide)⟩

/-! ## C11: refcount algebra -/

theorem refcount_addN (cfg : Config) (pa : Nat)
    (ht : 0 ≤ cfg.PA2REF pa ∧ cfg.PA2REF pa < cfg.MAXREFERENCES) (k : Nat) :
    ∀ s : KState, refcount cfg (addN cfg pa k s) pa
      = (CInt.wrap (refcount cfg s pa + k)).val := by
  induction k with
  | zero =>
    intro s
    have hlo := (s.references (cfg.PA2REF pa)).lo
    have hhi := (s.references (cfg.PA2REF pa)).hi
    simp only [addN, refcount, Nat.cast_zero, add_zero]
    exact (CInt.wrap_val _ hlo hhi).symm
  | succ k ih =>
    intro s
    simp only [addN]
    rw [ih, refcount_add_the_reference cfg pa s ht]
    simp only [CInt.wrap, Nat.cast_succ]
    omega

theorem addN_frame (cfg : Config) (pa : Nat) (k : Nat) :
    ∀ s : KState, (addN cfg pa k s).freelist = s.freelist ∧ (addN cfg pa k s).mem = s.mem ∧
      ∀ i, i ≠ cfg.PA2REF pa → (addN cfg pa k s).references i = s.references i := by
  induction k with
  | zero =>
    intro s
    exact ⟨rfl, rfl, fun _ _ => rfl⟩
  | succ k ih =>
    intro s
    simp only [addN]
    obtain ⟨h1, h2, h3⟩ := ih (add_the_reference cfg pa s)
    have hstep : (add_the_reference cfg pa s).freelist = s.freelist ∧
        (add_the_reference cfg pa s).mem = s.mem ∧
        ∀ i, i ≠ cfg.PA2REF pa →
          (add_the_reference cfg pa s).references i = s.references i := by
      unfold add_the_reference
      simp only
      split
      · exact ⟨rfl, rfl, fun _ _ => rfl⟩
      · exact ⟨rfl, rfl, fun i hi => setRef_other _ _ _ _ hi⟩
    exact ⟨h1.trans hstep.1, h2.trans hstep.2.1, fun i hi => (h3 i hi).trans (hstep.2.2 i hi)⟩

theorem decreasereferences_and_check_keep (cfg : Config) (pa : Nat) (s : KState)
    (ht : 0 ≤ cfg.PA2REF pa ∧ cfg.PA2REF pa < cfg.MAXREFERENCES)
    (hc : refcount cfg s pa ≤ 1) : decreasereferences_and_check cfg pa s = (0, s) := by
  unfold refcount at hc
  unfold decreasereferences_and_check
  simp only
  rw [if_neg (by omega), if_pos hc]

theorem decreasereferences_and_check_drop (cfg : Config) (pa : Nat) (s : KState)
    (ht : 0 ≤ cfg.PA2REF pa ∧ cfg.PA2REF pa < cfg.MAXREFERENCES)
    (hc : 1 < refcount cfg s pa) :
    decreasereferences_and_check cfg pa s
      = (1, { s with
          references := setRef s.references (cfg.PA2REF pa)
            (CInt.wrap (refcount cfg s pa - 1)) }) ∧
      refcount cfg { s with
          references := setRef s.references (cfg.PA2REF pa)
            (CInt.wrap (refcount cfg s pa - 1)) } pa = refcount cfg s pa - 1 := by
  have hhi := (s.references (cfg.PA2REF pa)).hi
  unfold refcount at hc
  constructor
  · unfold decreasereferences_and_check refcount
    simp only
    rw [if_neg (by omega), if_neg (by omega)]
  · simp only [refcount, setRef_same]
    exact CInt.wrap_val _ (by omega) (by omega)

theorem decN_spec (cfg : Config) (pa : Nat)
    (ht : 0 ≤ cfg.PA2REF pa ∧ cfg.PA2REF pa < cfg.MAXREFERENCES) (k : Nat) :
    ∀ s : KState, refcount cfg s pa = k + 1 →
      (decN cfg pa (k + 1) s).1 = List.replicate k 1 ++ [0] ∧
      refcount cfg (decN cfg pa (k + 1) s).2 pa = 1 := by
  induction k with
  | zero =>
    intro s hc
    have hk := decreasereferences_and_check_keep cfg pa s ht (by rw [hc]; decide)
    simp only [decN, hk]
    exact ⟨rfl, by simpa using hc⟩
  | succ k ih =>
    intro s hc
    obtain ⟨hd, hc'⟩ := decreasereferences_and_check_drop cfg pa s ht
      (by rw [hc]; push_cast; omega)
    have := ih _ (by rw [hc', hc]; push_cast; omega)
    rw [decN]
    simp only [hd]
    exact ⟨by rw [this.1]; rfl, this.2⟩

/-- C11, as stated, fails for `k = 2147483647`: frame 4096 is returned by
`kalloc` in the sample state with share count `1`; after `2147483647` calls of
`add_the_reference` its count has wrapped to `-2147483648`, and the first
`decreasereferences_and_check` already returns `0` (no copy needed) instead
of `1`. -/
theorem refcount_algebra_overflow :
    ∃ s, kalloc cfg2 (cowState 1) = (4096, s) ∧ refcount cfg2 s 4096 = 1 ∧
      (0 ≤ cfg2.PA2REF 4096 ∧ cfg2.PA2REF 4096 < cfg2.MAXREFERENCES) ∧
      refcount cfg2 (addN cfg2 4096 2147483647 s) 4096 = -2147483648 ∧
      (decreasereferences_and_check cfg2 4096 (addN cfg2 4096 2147483647 s)).1 = 0 := by
  obtain ⟨s, hk, -⟩ := kalloc_effect cfg2 (cowState 1) 4096 [] (cowState_freeList 1)
  have hc : refcount cfg2 s 4096 = 1 := by
    have := (kalloc_refcount cfg2 (cowState 1) 4096 [] (cowState_freeList 1)).1
    rw [hk] at this
    exact this
  have ht : 0 ≤ cfg2.PA2REF 4096 ∧ cfg2.PA2REF 4096 < cfg2.MAXREFERENCES := by decide
  have hw : refcount cfg2 (addN cfg2 4096 2147483647 s) 4096 = -2147483648 := by
    rw [refcount_addN cfg2 4096 ht 2147483647 s, hc]
    decide
  refine ⟨s, hk, hc, ht, hw, ?_⟩
  rw [decreasereferences_and_check_keep cfg2 4096 _ ht (by rw [hw]; decide)]

/-- C11 (amended): for every `k` with `k + 1 <= INT_MAX` and every tracked
frame with share count `1` (as `kalloc` returns it), `k` calls of
`add_the_reference` bring the count to `k + 1`, and `k + 1` calls of
`decreasereferences_and_check` then return `1` (copy needed) on each of the
first `k` calls and `0` (no copy needed) on the last one, leaving the count
at `1`. -/
theorem refcount_algebra (cfg : Config) (pa k : Nat) (s : KState)
    (ht : 0 ≤ cfg.PA2REF pa ∧ cfg.PA2REF pa < cfg.MAXREFERENCES)
    (hc : refcount cfg s pa = 1) (hk : (k : Int) + 1 ≤ INT_MAX) :
    refcount cfg (addN cfg pa k s) pa = k + 1 ∧
      (decN cfg pa (k + 1) (addN cfg pa k s)).1 = List.replicate k 1 ++ [0] ∧
      refcount cfg (decN cfg pa (k + 1) (addN cfg pa k s)).2 pa = 1 := by
  unfold INT_MAX at hk
  have hadd : refcount cfg (addN cfg pa k s) pa = k + 1 := by
    rw [refcount_addN cfg pa ht k s, hc, CInt.wrap_val _ (by omega) (by omega)]
    omega
  exact ⟨hadd, decN_spec cfg pa ht k _ hadd⟩

/-- Witness for C11 (amended): `k = 2` on frame 8192 of the sample state: the
checks return `1, 1, 0`. -/
theorem refcount_algebra_witness :
    (0 ≤ cfg2.PA2REF 8192 ∧ cfg2.PA2REF 8192 < cfg2.MAXREFERENCES) ∧
      refcount cfg2 (cowState 1) 8192 = 1 ∧ ((2 : Nat) : Int) + 1 ≤ INT_MAX ∧
      refcount cfg2 (addN cfg2 8192 2 (cowState 1)) 8192 = (2 : Nat) + 1 ∧
      (decN cfg2 8192 (2 + 1) (addN cfg2 8192 2 (cowState 1))).1
        = List.replicate 2 1 ++ [0] ∧
      refcount cfg2 (decN cfg2 8192 (2 + 1) (addN cfg2 8192 2 (cowState 1))).2 8192 = 1 :=
  ⟨by decide, by decide, by decide,
    refcount_algebra cfg2 8192 2 (cowState 1) (by decide) (by decide) (by decide)⟩

/-! ## C17: reuse after free -/

theorem poolInv_kallocN (cfg : Config) (hv : cfg.Valid) (l1 : List Nat) :
    ∀ (s : KState) (l2 : List Nat), PoolInv cfg s (l1 ++ l2) →
      (kallocN cfg l1.length s).1 = l1 ∧ PoolInv cfg (kallocN cfg l1.length s).2 l2 ∧
      (∀ p ∈ l1, refcount cfg (kallocN cfg l1.length s).2 p = 1) ∧
      (∀ i, (∀ q ∈ l1, cfg.PA2REF q ≠ i) →
        (kallocN cfg l1.length s).2.references i = s.references i) := by
  induction l1 with
  | nil =>
    intro s l2 h
    exact ⟨rfl, h, fun p hp => by simp at hp, fun _ _ => rfl⟩
  | cons p l1 ih =>
    intro s l2 h
    have hfl : FreeListIs cfg s (p :: (l1 ++ l2)) := h.1
    have hk1 := (freeListIs_kalloc cfg s p (l1 ++ l2) hfl).1
    have hkr := kalloc_refcount cfg s p (l1 ++ l2) hfl
    have hinv1 : PoolInv cfg (kalloc cfg s).2 (l1 ++ l2) :=
      poolInv_kalloc cfg hv s (p :: (l1 ++ l2)) h
    obtain ⟨h1, h2, h3, h4⟩ := ih (kalloc cfg s).2 l2 hinv1
    have hpm : managed cfg p := hfl.2.2 p (List.mem_cons_self p _)
    have hidx : ∀ q ∈ l1, cfg.PA2REF q ≠ cfg.PA2REF p := by
      intro q hq e
      have hqm : managed cfg q :=
        hfl.2.2 q (List.mem_cons_of_mem p (List.mem_append_left l2 hq))
      have hqp := hv.ref_inj q p hqm hpm e
      subst hqp
      exact (List.nodup_cons.mp hfl.2.1).1 (List.mem_append_left l2 hq)
    simp only [List.length_cons, kallocN]
    refine ⟨by rw [hk1, h1], h2, ?_, ?_⟩
    · intro q hq
      rcases List.mem_cons.mp hq with rfl | hq
      · unfold refcount
        rw [h4 _ hidx]
        exact hkr.1
      · exact h3 q hq
    · intro i hi
      rw [h4 i (fun q hq => hi q (List.mem_cons_of_mem p hq))]
      exact hkr.2 i (fun e => hi p (List.mem_cons_self p l1) e.symm)

/-- C17: for every state and every managed frame `F` with share count `1`,
`kfree(F)` returns normally and the `kalloc` that follows succeeds and
returns `F` again (non-null), filled with `69` and with share count `1`. -/
theorem reuse_after_free (cfg : Config) (hv : cfg.Valid) (F : Nat) (s : KState)
    (hm : managed cfg F) (hc : refcount cfg s F = 1) :
    ∃ s1 s2, kfree cfg F s = .ok s1 ∧ kalloc cfg s1 = (F, s2) ∧ F ≠ 0 ∧
      refcount cfg s2 F = 1 ∧ ∀ i, i < PGSIZE → s2.mem (F + i) = 69 := by
  have hF0 := managed_ne_zero cfg hv F hm
  have hk := kfree_release cfg F s hm (by omega) (by omega)
  have ha := kalloc_nonempty cfg
    { s with
        references := setRef s.references (cfg.PA2REF F) (CInt.wrap (refcount cfg s F - 1))
        mem := store64 (memset s.mem F 1 PGSIZE) F s.freelist
        freelist := F } hF0
  refine ⟨_, _, hk, ha, hF0, ?_, ?_⟩
  · simp only [refcount, setRef_same]
    decide
  · intro i hi
    simp only
    rw [memset_inside _ _ _ _ _ (by omega)]

/-- Witness for C17: a pool of 4 frames; 4 allocations succeed, the 5th
returns `0`, frame 12288 is freed, and the next allocation returns 12288. -/
theorem reuse_after_free_witness :
    ∃ s1 s2 s3 s4, kinit cfg4 boot0 = .ok s1 ∧
      kallocN cfg4 4 s1 = ([16384, 12288, 8192, 4096], s2) ∧
      kalloc cfg4 s2 = (0, s2) ∧ cfg4.Valid ∧ managed cfg4 12288 ∧
      refcount cfg4 s2 12288 = 1 ∧ kfree cfg4 12288 s2 = .ok s3 ∧
      kalloc cfg4 s3 = (12288, s4) ∧ 12288 ≠ 0 ∧ refcount cfg4 s4 12288 = 1 ∧
      ∀ i, i < PGSIZE → s4.mem (12288 + i) = 69 := by
  obtain ⟨s1, hk1, hinv1, -⟩ := kinit_spec cfg4 cfg4_valid boot0 boot0_boot
  have hl : (poolFrames cfg4).reverse = [16384, 12288, 8192, 4096] ++ [] := by
    rw [poolFrames_cfg4]
    rfl
  rw [hl] at hinv1
  obtain ⟨h1, h2, h3, -⟩ :=
    poolInv_kallocN cfg4 cfg4_valid [16384, 12288, 8192, 4096] s1 [] hinv1
  have hc : refcount cfg4 (kallocN cfg4 4 s1).2 12288 = 1 := h3 12288 (by simp)
  have h0 : (kallocN cfg4 4 s1).2.freelist = 0 := h2.1.1
  obtain ⟨s3, s4, h5, h6, h7, h8, h9⟩ :=
    reuse_after_free cfg4 cfg4_valid 12288 (kallocN cfg4 4 s1).2 (by decide) hc
  exact ⟨s1, (kallocN cfg4 4 s1).2, s3, s4, hk1, Prod.ext h1 rfl,
    kalloc_empty cfg4 _ h0, cfg4_valid, by decide, hc, h5, h6, h7, h8, h9⟩

/-! ## C12: successive calls of `copyanddecreasereferences` -/

theorem copy_page_ok (cfg : Config) (hv : cfg.Valid) (F g : Nat) (l : List Nat)
    (s : KState) (hinv : PoolInv cfg s (g :: l)) (hm : managed cfg F)
    (hc : 1 ≤ refcount cfg s F) :
    ∃ s', copy_page cfg F s = (g, s') ∧ g ≠ 0 ∧ g ≠ F ∧
      (∀ i, i < PGSIZE → s'.mem (g + i) = s.mem (F + i)) ∧
      refcount cfg s' g = 1 ∧ refcount cfg s' F = refcount cfg s F ∧
      PoolInv cfg s' l ∧ ∀ a, a < g ∨ g + PGSIZE ≤ a → s'.mem a = s.mem a := by
  have hfl := hinv.1
  have hg0 : g ≠ 0 := hfl.1.2.1
  have hgm : managed cfg g := hfl.2.2 g (List.mem_cons_self g l)
  have hFnot := poolInv_not_mem cfg s (g :: l) F hinv hc
  have hgF : g ≠ F := fun h => hFnot (h ▸ List.mem_cons_self g l)
  have hidx : cfg.PA2REF F ≠ cfg.PA2REF g := fun h => hgF (hv.ref_inj _ _ hm hgm h).symm
  have ht := hv.ref_tracked F hm
  obtain ⟨sb, hk, hbmem, hbrefs, -, -⟩ := kalloc_effect cfg s g l hfl
  have hinvb : PoolInv cfg sb l := by
    have := poolInv_kalloc cfg hv s (g :: l) hinv
    rw [hk] at this
    exact this
  have hinv1 : PoolInv cfg { sb with mem := memmove sb.mem g F PGSIZE } l := by
    refine poolInv_congr cfg sb _ l hinvb rfl rfl ?_
    intro q hq i hi
    have hqg : q ≠ g := by
      rintro rfl
      exact (List.nodup_cons.mp hfl.2.1).1 hq
    have hd := page_disjoint g q i hgm.1 (hinvb.1.2.2 q hq).1 hqg
      (by simp only [PGSIZE]; omega)
    exact (memmove_outside _ _ _ _ _ hd).symm
  refine ⟨{ sb with mem := memmove sb.mem g F PGSIZE }, ?_, hg0, hgF, ?_, ?_, ?_, hinv1, ?_⟩
  · unfold copy_page
    simp only [hk]
    rw [if_neg (by omega), if_neg hg0]
  · intro i hi
    simp only
    rw [memmove_inside _ _ _ _ _ hi, hbmem,
      memset_outside _ _ _ _ _ (page_disjoint g F i hgm.1 hm.1 (Ne.symm hgF) hi)]
  · simp only [refcount, hbrefs, setRef_same]
    decide
  · simp only [refcount, hbrefs]
    rw [setRef_other _ _ _ _ hidx]
  · intro a ha
    simp only
    rw [memmove_outside _ _ _ _ _ ha, hbmem, memset_outside _ _ _ _ _ ha]

theorem copyanddecreasereferences_keep (cfg : Config) (pa : Nat) (s : KState)
    (ht : 0 ≤ cfg.PA2REF pa ∧ cfg.PA2REF pa < cfg.MAXREFERENCES)
    (hc : refcount cfg s pa ≤ 1) : copyanddecreasereferences cfg pa s = (pa, s) := by
  unfold copyanddecreasereferences
  simp only [decreasereferences_and_check_keep cfg pa s ht hc]
  rfl

theorem copyanddecreasereferences_copy (cfg : Config) (hv : cfg.Valid) (F g : Nat)
    (l : List Nat) (s : KState) (hinv : PoolInv cfg s (g :: l)) (hm : managed cfg F)
    (hc : 2 ≤ refcount cfg s F) :
    ∃ s', copyanddecreasereferences cfg F s = (g, s') ∧ g ≠ 0 ∧ g ≠ F ∧
      (∀ i, i < PGSIZE → s'.mem (g + i) = s.mem (F + i)) ∧
      refcount cfg s' g = 1 ∧ refcount cfg s' F = refcount cfg s F - 1 ∧
      PoolInv cfg s' l ∧ ∀ a, a < g ∨ g + PGSIZE ≤ a → s'.mem a = s.mem a := by
  have ht := hv.ref_tracked F hm
  obtain ⟨hd, hcd⟩ := decreasereferences_and_check_drop cfg F s ht (by omega)
  have hinvd : PoolInv cfg
      { s with
        references := setRef s.references (cfg.PA2REF F) (CInt.wrap (refcount cfg s F - 1)) }
      (g :: l) := by
    have := poolInv_dec cfg s (g :: l) F hinv
    rw [hd] at this
    exact this
  obtain ⟨s', h1, h2, h3, h4, h5, h6, h7, h8⟩ :=
    copy_page_ok cfg hv F g l _ hinvd hm (by rw [hcd]; omega)
  refine ⟨s', ?_, h2, h3, h4, h5, by rw [h6, hcd], h7, h8⟩
  unfold copyanddecreasereferences
  simp only [hd]
  rw [if_neg (by decide)]
  exact h1

theorem resolveN_spec (cfg : Config) (hv : cfg.Valid) (F : Nat) (hm : managed cfg F)
    (l1 : List Nat) :
    ∀ (s : KState) (l2 : List Nat), PoolInv cfg s (l1 ++ l2) →
      refcount cfg s F = (l1.length : Int) + 1 →
      (resolveN cfg F l1.length s).1 = l1 ∧
      (∀ j, j < l1.length →
        ∃ g s', copyanddecreasereferences cfg F (resolveN cfg F j s).2 = (g, s') ∧
          g ∈ l1 ∧ g ≠ 0 ∧ g ≠ F ∧
          (∀ i, i < PGSIZE → s'.mem (g + i) = s.mem (F + i)) ∧
          refcount cfg s' g = 1) ∧
      copyanddecreasereferences cfg F (resolveN cfg F l1.length s).2
        = (F, (resolveN cfg F l1.length s).2) ∧
      (∀ i, i < PGSIZE → (resolveN cfg F l1.length s).2.mem (F + i) = s.mem (F + i)) ∧
      refcount cfg (resolveN cfg F l1.length s).2 F = 1 ∧
      PoolInv cfg (resolveN cfg F l1.length s).2 l2 := by
  induction l1 with
  | nil =>
    intro s l2 hinv hc
    have hc1 : refcount cfg s F = 1 := by simpa using hc
    refine ⟨rfl, fun j hj => absurd hj (by simp), ?_, fun _ _ => rfl, hc1, hinv⟩
    exact copyanddecreasereferences_keep cfg F s (hv.ref_tracked F hm) (by omega)
  | cons p l1 ih =>
    intro s l2 hinv hc
    have hc2 : refcount cfg s F = (l1.length : Int) + 1 + 1 := by
      rw [hc]
      simp
    obtain ⟨s1, h1, h2, h3, h4, h5, h6, h7, h8⟩ :=
      copyanddecreasereferences_copy cfg hv F p (l1 ++ l2) s hinv hm (by omega)
    have hFpage : ∀ i, i < PGSIZE → s1.mem (F + i) = s.mem (F + i) := fun i hi =>
      h8 _ (page_disjoint p F i (hinv.1.2.2 p (List.mem_cons_self p _)).1 hm.1
        (Ne.symm h3) hi)
    obtain ⟨i1, i2, i3, i4, i5, i6⟩ := ih s1 l2 h7 (by rw [h6, hc2]; omega)
    have hstep : ∀ n, resolveN cfg F (n + 1) s
        = (p :: (resolveN cfg F n s1).1, (resolveN cfg F n s1).2) := by
      intro n
      rw [resolveN]
      simp only [h1]
    simp only [List.length_cons]
    rw [hstep l1.length]
    refine ⟨by rw [i1], ?_, i3, ?_, i5, i6⟩
    · intro j hj
      cases j with
      | zero =>
        exact ⟨p, s1, h1, List.mem_cons_self p l1, h2, h3, h4, h5⟩
      | succ j =>
        obtain ⟨g, s', k1, k2, k3, k4, k5, k6⟩ := i2 j (by omega)
        rw [hstep j]
        refine ⟨g, s', k1, List.mem_cons_of_mem p k2, k3, k4, ?_, k6⟩
        intro i hi
        rw [k5 i hi, hFpage i hi]
    · intro i hi
      rw [i4 i hi, hFpage i hi]

/-- C12: let `F` be a managed frame with share count `k + 1` in a state that
satisfies the pool invariant with free list `l1 ++ l2`, `l1` of length `k`.
Then `k` successive calls of `copyanddecreasereferences(F)` return the frames
of `l1` in order (so they are pairwise distinct frames taken from the free
list); each of these calls returns a non-null frame other than `F` whose 4096
bytes equal the bytes of `F` and whose share count is `1`; the call after them
returns `F` itself and leaves the whole state as it is (nothing is allocated),
with `F`'s bytes still those of the start and its count `1`. -/
theorem resolve_write_sequence (cfg : Config) (hv : cfg.Valid) (F : Nat)
    (l1 l2 : List Nat) (s : KState) (hm : managed cfg F)
    (hinv : PoolInv cfg s (l1 ++ l2)) (hc : refcount cfg s F = (l1.length : Int) + 1) :
    (resolveN cfg F l1.length s).1 = l1 ∧ l1.Nodup ∧
      (∀ j, j < l1.length →
        ∃ g s', copyanddecreasereferences cfg F (resolveN cfg F j s).2 = (g, s') ∧
          g ∈ l1 ∧ g ≠ 0 ∧ g ≠ F ∧
          (∀ i, i < PGSIZE → s'.mem (g + i) = s.mem (F + i)) ∧
          refcount cfg s' g = 1) ∧
      copyanddecreasereferences cfg F (resolveN cfg F l1.length s).2
        = (F, (resolveN cfg F l1.length s).2) ∧
      (∀ i, i < PGSIZE → (resolveN cfg F l1.length s).2.mem (F + i) = s.mem (F + i)) ∧
      refcount cfg (resolveN cfg F l1.length s).2 F = 1 ∧
      PoolInv cfg (resolveN cfg F l1.length s).2 l2 := by
  obtain ⟨h1, h2, h3, h4, h5, h6⟩ := resolveN_spec cfg hv F hm l1 s l2 hinv hc
  have hnd : l1.Nodup := (List.nodup_append.mp hinv.1.2.1).1
  exact ⟨h1, hnd, h2, h3, h4, h5, h6⟩

/-- Witness for C12: the scenario with `k = 2` in the four-frame pool.
`kalloc` hands out frame 16384 (count 1), two calls of `add_the_reference`
bring its count to 3, the free list is `[12288, 8192, 4096]`; two calls of
`copyanddecreasereferences(16384)` return the copies 12288 and 8192, and the
third call returns 16384 itself and changes nothing. -/
theorem resolve_write_sequence_witness :
    ∃ s1 s2, kinit cfg4 boot0 = .ok s1 ∧ kalloc cfg4 s1 = (16384, s2) ∧
      cfg4.Valid ∧ managed cfg4 16384 ∧
      PoolInv cfg4 (addN cfg4 16384 2 s2) ([12288, 8192] ++ [4096]) ∧
      refcount cfg4 (addN cfg4 16384 2 s2) 16384 = (([12288, 8192].length : Nat) : Int) + 1 ∧
      (resolveN cfg4 16384 2 (addN cfg4 16384 2 s2)).1 = [12288, 8192] ∧
      copyanddecreasereferences cfg4 16384 (resolveN cfg4 16384 2 (addN cfg4 16384 2 s2)).2
        = (16384, (resolveN cfg4 16384 2 (addN cfg4 16384 2 s2)).2) ∧
      (∀ i, i < PGSIZE →
        (resolveN cfg4 16384 2 (addN cfg4 16384 2 s2)).2.mem (16384 + i)
          = (addN cfg4 16384 2 s2).mem (16384 + i)) := by
  obtain ⟨s1, hk1, hinv1, -⟩ := kinit_spec cfg4 cfg4_valid boot0 boot0_boot
  have hl : (poolFrames cfg4).reverse = [16384, 12288, 8192, 4096] := by
    rw [poolFrames_cfg4]
    rfl
  rw [hl] at hinv1
  have ha1 := (freeListIs_kalloc cfg4 s1 16384 [12288, 8192, 4096] hinv1.1).1
  have hinv2 : PoolInv cfg4 (kalloc cfg4 s1).2 [12288, 8192, 4096] :=
    poolInv_kalloc cfg4 cfg4_valid s1 _ hinv1
  have hc2 := (kalloc_refcount cfg4 s1 16384 [12288, 8192, 4096] hinv1.1).1
  have ht : 0 ≤ cfg4.PA2REF 16384 ∧ cfg4.PA2REF 16384 < cfg4.MAXREFERENCES := by decide
  have hc3 : refcount cfg4 (add_the_reference cfg4 16384 (kalloc cfg4 s1).2) 16384 = 2 := by
    rw [refcount_add_the_reference cfg4 16384 _ ht, hc2]
    decide
  have hinv3 : PoolInv cfg4 (addN cfg4 16384 2 (kalloc cfg4 s1).2)
      ([12288, 8192] ++ [4096]) := by
    have h1 := poolInv_add cfg4 _ _ 16384 hinv2 (by rw [hc2]) (by rw [hc2]; decide)
    exact poolInv_add cfg4 _ _ 16384 h1 (by rw [hc3]; decide) (by rw [hc3]; decide)
  have hc4 : refcount cfg4 (addN cfg4 16384 2 (kalloc cfg4 s1).2) 16384
      = (([12288, 8192].length : Nat) : Int) + 1 := by
    rw [refcount_addN cfg4 16384 ht 2 _, hc2]
    decide
  obtain ⟨r1, -, -, r3, r4, -, -⟩ :=
    resolve_write_sequence cfg4 cfg4_valid 16384 [12288, 8192] [4096]
      (addN cfg4 16384 2 (kalloc cfg4 s1).2) (by decide) hinv3 hc4
  exact ⟨s1, (kalloc cfg4 s1).2, hk1, Prod.ext ha1 rfl, cfg4_valid, by decide, hinv3, hc4,
    r1, r3, r4⟩

/-! ## C18: lock discipline -/

/-- C18, evaluated on the code: `kalloc` on the sample state (free list
`[4096]`) takes and releases `kmem.lock` around its two free-list accesses and
then sets the share count with no lock held, so its event sequence breaks the
discipline; this is so for every state with a non-empty free list. The event
sequences of `kfree`, `add_the_reference` and `decreasereferences_and_check`
keep the discipline in every state, as does `kalloc` on an empty free list. -/
theorem kalloc_sets_count_without_lock :
    (cowState 1).freelist ≠ 0 ∧
      kallocEvents (cowState 1)
        = [.acquire .kmem, .freelistAccess, .freelistAccess, .release .kmem, .refAccess] ∧
      disciplined false false (kallocEvents (cowState 1)) = false ∧
      (∀ s : KState, disciplined false false (kallocEvents s) = decide (s.freelist = 0)) ∧
      (∀ cfg pa s, disciplined false false (kfreeEvents cfg pa s) = true) ∧
      (∀ cfg pa, disciplined false false (addEvents cfg pa) = true) ∧
      (∀ cfg pa s, disciplined false false (decEvents cfg pa s) = true) := by
  refine ⟨by decide, by decide, by decide, ?_, ?_, ?_, ?_⟩
  · intro s
    unfold kallocEvents
    by_cases h : s.freelist = 0
    · simp [h, disciplined]
    · simp [h, disciplined]
  · intro cfg pa s
    unfold kfreeEvents
    split
    · rfl
    · split <;> rfl
  · intro cfg pa
    unfold addEvents
    split <;> rfl
  · intro cfg pa s
    unfold decEvents
    split
    · rfl
    · split <;> rfl

end LazyWrite
